import Mathlib

/-!
Verification development for the heliospice kernel cache and resolution
engine.  The definitions below are a shallow embedding of the Python source
(`kernel_manager.py`, `missions.py`, `ephemeris.py`): stateful code becomes
explicit state passing over a `World` (kernel-manager bookkeeping plus an
abstract disk), network and file-write outcomes are supplied by oracle
functions, and each operation additionally returns the list of primitive
events it performed (lock acquire/release, SPICE pool calls, network
fetches, state-field mutations), so that lock discipline and call counts
are provable properties of traces.
-/

namespace Heliospice

/-- Calendar date, compared lexicographically like Python `datetime.date`. -/
structure Date where
  year : Nat
  month : Nat
  day : Nat
deriving DecidableEq, Repr

/-- Python `date` ordering: lexicographic on (year, month, day). -/
def Date.le (a b : Date) : Bool :=
  decide (a.year < b.year) ||
    (decide (a.year = b.year) &&
      (decide (a.month < b.month) ||
        (decide (a.month = b.month) && decide (a.day ≤ b.day))))

/-- One entry of a segment manifest: keys `file`, `url`, `start`, `stop`
(`kernel_manager._load_manifest` returns a list of such records, dates
already parsed). -/
structure Segment where
  file : String
  url : String
  start : Date
  stop : Date
deriving DecidableEq, Repr

/-- Abstract cache directory content: association list from filename to
file size in bytes. -/
abbrev Disk := List (String × Nat)

def Disk.get (d : Disk) (f : String) : Option Nat :=
  (d.find? (fun p => p.1 == f)).map (fun p => p.2)

def Disk.del (d : Disk) (f : String) : Disk :=
  d.filter (fun p => !(p.1 == f))

def Disk.set (d : Disk) (f : String) (sz : Nat) : Disk :=
  (f, sz) :: Disk.del d f

/-- `local_path.exists() and local_path.stat().st_size > 0`. -/
def Disk.cachedNonEmpty (d : Disk) (f : String) : Bool :=
  match Disk.get d f with
  | some sz => decide (0 < sz)
  | none => false

/-- `Path.with_suffix(".tmp")`: replace the extension after the last dot
(or append when there is none). -/
def withSuffixTmp (f : String) : String :=
  let cs := f.toList
  if cs.contains '.' then
    String.mk (((cs.reverse.dropWhile (fun c => !(c == '.'))).drop 1).reverse) ++ ".tmp"
  else f ++ ".tmp"

/-- The mutable fields of `KernelManager` (spec `CacheState`). -/
structure KMState where
  loadedKernels : List String
  genericLoaded : Bool
  missionKernelsLoaded : List String
  segmentedFilesLoaded : List String
deriving DecidableEq, Repr

def freshKM : KMState := ⟨[], false, [], []⟩

/-- Kernel-manager state together with the cache directory content. -/
structure World where
  km : KMState
  disk : Disk
deriving DecidableEq, Repr

def freshWorld : World := ⟨freshKM, []⟩

/-- Names of the `CacheState` fields, for mutation events. -/
inductive Field where
  | loadedKernels
  | genericLoaded
  | missionKernelsLoaded
  | segmentedFilesLoaded
deriving DecidableEq, Repr

/-- Primitive observable steps performed by the operations. -/
inductive Event where
  | acquire
  | release
  | furnsh (key : String)
  | kclear
  | spiceUnload (key : String)
  | fetch (url : String)
  | mut (f : Field)
  | callEnsureMission (key : String)
  | callEnsureSegmented (key : String)
deriving DecidableEq, Repr

/-- Failure outcomes of the fallible operations (each constructor is one
`raise` site of the source, carrying the data its message reports). -/
inductive Err where
  | downloadFailed (filename url msg : String)
  | writeFailed (filename : String)
  | missionUsesSegmented (key : String)
  | noKernelsDefined (key : String)
  | noCoverage (key : String) (queryStart queryEnd firstStart lastStop : Date)
  | emptyManifest (key : String)
deriving DecidableEq, Repr

/-- Dictionary lookup on an association list (first match; the embedded
literals have distinct keys, matching Python dict literals). -/
def lookupStr {α : Type} (m : List (String × α)) (k : String) : Option α :=
  (m.find? (fun p => p.1 == k)).map (fun p => p.2)

/-- `GENERIC_KERNELS` from `missions.py`. -/
def GENERIC_KERNELS : List (String × String) :=
  [("naif0012.tls",
    "https://naif.jpl.nasa.gov/pub/naif/generic_kernels/lsk/naif0012.tls"),
   ("pck00011.tpc",
    "https://naif.jpl.nasa.gov/pub/naif/generic_kernels/pck/pck00011.tpc"),
   ("de440s.bsp",
    "https://naif.jpl.nasa.gov/pub/naif/generic_kernels/spk/planets/de440s.bsp"),
   ("gm_de440.tpc",
    "https://naif.jpl.nasa.gov/pub/naif/generic_kernels/pck/gm_de440.tpc")]

/-- `SEGMENTED_MISSIONS` from `missions.py`. -/
def SEGMENTED_MISSIONS : List (String × String) :=
  [("CASSINI", "cassini.json"), ("MRO", "mro.json"), ("MARS_2020", "mars2020.json")]

/-- `download_kernel`: serve from cache when a non-empty file exists,
otherwise fetch over the network (outcome given by the `net` oracle,
mapping a URL to the downloaded size or an error message), write to a
temporary sibling and rename into place (write outcome given by the
`writeOk` oracle); on write failure the temporary file is unlinked and the
error propagates. -/
def downloadKernel (net : String → Except String Nat) (writeOk : String → Bool)
    (url filename : String) (d : Disk) : Disk × List Event × Option Err :=
  if Disk.cachedNonEmpty d filename then (d, [], none)
  else
    match net url with
    | .error e => (d, [.fetch url], some (.downloadFailed filename url e))
    | .ok contentSize =>
        if writeOk filename then
          (Disk.set (Disk.del d (withSuffixTmp filename)) filename contentSize,
           [.fetch url], none)
        else
          (Disk.del d (withSuffixTmp filename), [.fetch url], some (.writeFailed filename))

/-- `load_kernel`: under the lock, admit the canonicalized path into the
SPICE pool unless it is already recorded in `loadedKernels`. -/
def loadKernel (canon : String → String) (path : String) (s : KMState) :
    KMState × List Event :=
  let key := canon path
  if key ∈ s.loadedKernels then (s, [.acquire, .release])
  else ({ s with loadedKernels := key :: s.loadedKernels },
        [.acquire, .furnsh key, .mut .loadedKernels, .release])

/-- `unload_all`: under the lock, clear the SPICE pool and every tracking
field. -/
def unloadAll (_s : KMState) : KMState × List Event :=
  (freshKM,
   [.acquire, .kclear, .mut .loadedKernels, .mut .genericLoaded,
    .mut .missionKernelsLoaded, .mut .segmentedFilesLoaded, .release])

def naifBase : String := "https://naif.jpl.nasa.gov/pub/naif"

/-- `MISSION_KERNELS` from `missions.py`: per mission, its fixed
filename-to-URL kernel map, in literal order. -/
def MISSION_KERNELS : List (String × List (String × String)) :=
  [("PSP",
    [("spp_nom_20180812_20300101_v043_PostV7.bsp",
      "https://cdaweb.gsfc.nasa.gov/pub/data/psp/ephemeris/spice/ephemerides/spp_nom_20180812_20300101_v043_PostV7.bsp")]),
   ("SOLO",
    [("solo_ANC_soc-orbit-stp_20200210-20301120_399_V1_00513_V01.bsp",
      "https://spiftp.esac.esa.int/data/SPICE/SOLAR-ORBITER/kernels/spk/solo_ANC_soc-orbit-stp_20200210-20301120_399_V1_00513_V01.bsp")]),
   ("STEREO_A",
    [("STEREO-A_merged.bsp", naifBase ++ "/STEREO/kernels/spk/STEREO-A_merged.bsp")]),
   ("STEREO_B",
    [("behind_2026_029_01.epm.bsp",
      "https://sohoftp.nascom.nasa.gov/solarsoft/stereo/gen/data/spice/epm/behind/behind_2026_029_01.epm.bsp")]),
   ("JUNO",
    [("juno_rec_orbit.bsp", naifBase ++ "/JUNO/kernels/spk/juno_rec_orbit.bsp")]),
   ("VOYAGER_1",
    [("vgr1.x2100.bsp", naifBase ++ "/VOYAGER/kernels/spk/vgr1.x2100.bsp")]),
   ("VOYAGER_2",
    [("vgr2.x2100.bsp", naifBase ++ "/VOYAGER/kernels/spk/vgr2.x2100.bsp")]),
   ("MAVEN",
    [("maven_orb_rec.bsp", naifBase ++ "/MAVEN/kernels/spk/maven_orb_rec.bsp")]),
   ("NEW_HORIZONS",
    [("nh_pred_alleph_od161.bsp",
      naifBase ++ "/pds/data/nh-j_p_ss-spice-6-v1.0/nhsp_1000/data/spk/nh_pred_alleph_od161.bsp")]),
   ("ULYSSES",
    [("ulysses_1990_2009_2050.bsp",
      naifBase ++ "/ULYSSES/kernels/spk/ulysses_1990_2009_2050.bsp")]),
   ("PIONEER_10",
    [("p10-a.bsp", naifBase ++ "/PIONEER10/kernels/spk/p10-a.bsp")]),
   ("PIONEER_11",
    [("p11-a.bsp", naifBase ++ "/PIONEER11/kernels/spk/p11-a.bsp")]),
   ("GALILEO",
    [("gll_951120_021126_raj2021.bsp",
      naifBase ++ "/GLL/kernels/spk/gll_951120_021126_raj2021.bsp")]),
   ("HELIOS_1",
    [("100528R_helios1_74345_81272.bsp",
      naifBase ++ "/HELIOS/kernels/spk/100528R_helios1_74345_81272.bsp"),
     ("160707AP_helios1_81272_86074.bsp",
      naifBase ++ "/HELIOS/kernels/spk/160707AP_helios1_81272_86074.bsp")]),
   ("HELIOS_2",
    [("100607R_helios2_76016_80068.bsp",
      naifBase ++ "/HELIOS/kernels/spk/100607R_helios2_76016_80068.bsp")]),
   ("MESSENGER",
    [("msgr_040803_150430_150430_od431sc_2.bsp",
      naifBase ++ "/pds/data/mess-e_v_h-spice-6-v1.0/messsp_1000/data/spk/msgr_040803_150430_150430_od431sc_2.bsp")]),
   ("THEMIS_A",
    [("THEMIS_A_definitive_trajectory.bsp",
      naifBase ++ "/THEMIS/kernels/spk/THEMIS_A_definitive_trajectory.bsp")]),
   ("THEMIS_B",
    [("THEMIS_B_definitive_trajectory.bsp",
      naifBase ++ "/THEMIS/kernels/spk/THEMIS_B_definitive_trajectory.bsp")]),
   ("THEMIS_C",
    [("THEMIS_C_definitive_trajectory.bsp",
      naifBase ++ "/THEMIS/kernels/spk/THEMIS_C_definitive_trajectory.bsp")]),
   ("THEMIS_D",
    [("THEMIS_D_definitive_trajectory.bsp",
      naifBase ++ "/THEMIS/kernels/spk/THEMIS_D_definitive_trajectory.bsp")]),
   ("THEMIS_E",
    [("THEMIS_E_definitive_trajectory.bsp",
      naifBase ++ "/THEMIS/kernels/spk/THEMIS_E_definitive_trajectory.bsp")]),
   ("DAWN",
    [("dawn_ephem_2018.bsp", naifBase ++ "/DAWN/kernels/spk/Dawn_ephem_2018.bsp")]),
   ("LUCY",
    [("lcy_250917_330402_250730_OD093-R-MEF2-P-TCM37a-P_v1.bsp",
      naifBase ++ "/LUCY/kernels/spk/lcy_250917_330402_250730_OD093-R-MEF2-P-TCM37a-P_v1.bsp")]),
   ("EUROPA_CLIPPER",
    [("trj_251001-260516-dco2601141914-cruise013-predict-OD078-v1.bsp",
      naifBase ++ "/EUROPACLIPPER/kernels/spk/trj_251001-260516-dco2601141914-cruise013-predict-OD078-v1.bsp")]),
   ("PSYCHE",
    [("psyche_sc-eph_250912-260601_260114_v1.bsp",
      naifBase ++ "/PSYCHE/kernels/spk/psyche_sc-eph_250912-260601_260114_v1.bsp")]),
   ("JUICE",
    [("juice_crema_5_1_150lb_23_1_v01.bsp",
      naifBase ++ "/JUICE/kernels/spk/juice_crema_5_1_150lb_23_1_v01.bsp")]),
   ("BEPICOLOMBO",
    [("bc_mtm_scp_cruise_20181016_20251205_v01.bsp",
      naifBase ++ "/BEPICOLOMBO/kernels/spk/bc_mtm_scp_cruise_20181016_20251205_v01.bsp")])]

/-- Download followed by load, the per-file body of the `ensure_*` loops. -/
def downloadAndLoad (net : String → Except String Nat) (writeOk : String → Bool)
    (canon : String → String) (url filename : String) (w : World) :
    World × List Event × Option Err :=
  match downloadKernel net writeOk url filename w.disk with
  | (d', ev1, some e) => (⟨w.km, d'⟩, ev1, some e)
  | (d', ev1, none) =>
      let (s', ev2) := loadKernel canon filename w.km
      (⟨s', d'⟩, ev1 ++ ev2, none)

/-- Loop body of `ensure_generic_kernels`: walk the ordered file list,
skipping names absent from `GENERIC_KERNELS`, downloading and loading each
present one; the first failure aborts the walk (exception propagation). -/
def genericLoop (net : String → Except String Nat) (writeOk : String → Bool)
    (canon : String → String) : List String → World → World × List Event × Option Err
  | [], w => (w, [], none)
  | f :: rest, w =>
      match lookupStr GENERIC_KERNELS f with
      | none => genericLoop net writeOk canon rest w
      | some url =>
          match downloadAndLoad net writeOk canon url f w with
          | (w', ev, some e) => (w', ev, some e)
          | (w', ev, none) =>
              match genericLoop net writeOk canon rest w' with
              | (w'', ev2, r) => (w'', ev ++ ev2, r)

/-- `ensure_generic_kernels`: the ordered file list of the source
(LSK, PCK, gravitational parameters, planetary SPK). -/
def orderedGenericFiles : List String :=
  ["naif0012.tls", "pck00011.tpc", "gm_de440.tpc", "de440s.bsp"]

/-- `ensure_generic_kernels`: no-op when `genericLoaded` is set, otherwise
download+load the ordered list and set the flag (the flag assignment is
not inside any lock acquisition in the source). -/
def ensureGenericKernels (net : String → Except String Nat) (writeOk : String → Bool)
    (canon : String → String) (w : World) : World × List Event × Option Err :=
  if w.km.genericLoaded then (w, [], none)
  else
    match genericLoop net writeOk canon orderedGenericFiles w with
    | (w', ev, some e) => (w', ev, some e)
    | (w', ev, none) =>
        (⟨{ w'.km with genericLoaded := true }, w'.disk⟩,
         ev ++ [.mut .genericLoaded], none)

/-- Loop of `ensure_mission_kernels` over one mission's kernel map. -/
def missionLoop (net : String → Except String Nat) (writeOk : String → Bool)
    (canon : String → String) : List (String × String) → World → World × List Event × Option Err
  | [], w => (w, [], none)
  | (f, url) :: rest, w =>
      match downloadAndLoad net writeOk canon url f w with
      | (w', ev, some e) => (w', ev, some e)
      | (w', ev, none) =>
          match missionLoop net writeOk canon rest w' with
          | (w'', ev2, r) => (w'', ev ++ ev2, r)

/-- `ensure_mission_kernels`: idempotent per mission key; ensures generic
kernels first; rejects segmented missions and unknown missions; downloads
and loads every file of the mission's map, then records the mission (the
recording is not inside any lock acquisition in the source). -/
def ensureMissionKernels (net : String → Except String Nat) (writeOk : String → Bool)
    (canon : String → String) (key : String) (w : World) : World × List Event × Option Err :=
  if key ∈ w.km.missionKernelsLoaded then (w, [.callEnsureMission key], none)
  else
    match ensureGenericKernels net writeOk canon w with
    | (w1, ev1, some e) => (w1, .callEnsureMission key :: ev1, some e)
    | (w1, ev1, none) =>
        match lookupStr MISSION_KERNELS key with
        | none =>
            if (lookupStr SEGMENTED_MISSIONS key).isSome then
              (w1, .callEnsureMission key :: ev1, some (.missionUsesSegmented key))
            else
              (w1, .callEnsureMission key :: ev1, some (.noKernelsDefined key))
        | some kernels =>
            match missionLoop net writeOk canon kernels w1 with
            | (w2, ev2, some e) => (w2, .callEnsureMission key :: (ev1 ++ ev2), some e)
            | (w2, ev2, none) =>
                (⟨{ w2.km with missionKernelsLoaded := key :: w2.km.missionKernelsLoaded },
                  w2.disk⟩,
                 .callEnsureMission key :: (ev1 ++ ev2 ++ [.mut .missionKernelsLoaded]),
                 none)

/-- Segment selection of `ensure_segmented_kernels`:
`seg_start <= time_end and seg_stop >= time_start`. -/
def selectSegments (manifest : List Segment) (tStart tEnd : Date) : List Segment :=
  manifest.filter (fun seg => Date.le seg.start tEnd && Date.le tStart seg.stop)

/-- Loading loop of `ensure_segmented_kernels`: skip segments already in
`segmentedFilesLoaded`, otherwise download, load, and record; the first
failure aborts the walk, keeping the records made so far. -/
def segLoop (net : String → Except String Nat) (writeOk : String → Bool)
    (canon : String → String) : List Segment → World → World × List Event × Option Err
  | [], w => (w, [], none)
  | seg :: rest, w =>
      if seg.file ∈ w.km.segmentedFilesLoaded then segLoop net writeOk canon rest w
      else
        match downloadAndLoad net writeOk canon seg.url seg.file w with
        | (w', ev, some e) => (w', ev, some e)
        | (w', ev, none) =>
            let w'' : World :=
              ⟨{ w'.km with segmentedFilesLoaded := seg.file :: w'.km.segmentedFilesLoaded },
               w'.disk⟩
            match segLoop net writeOk canon rest w'' with
            | (w3, ev2, r) => (w3, ev ++ .mut .segmentedFilesLoaded :: ev2, r)

/-- `ensure_segmented_kernels`: ensure generic kernels, read the manifest
(the `manifests` parameter models the bundled JSON resources read by
`_load_manifest`), select the overlapping segments, fail with a coverage
or empty-manifest error when nothing overlaps, otherwise download+load the
not-yet-loaded selected segments. -/
def ensureSegmentedKernels (net : String → Except String Nat) (writeOk : String → Bool)
    (canon : String → String) (manifests : String → List Segment)
    (key : String) (tStart tEnd : Date) (w : World) : World × List Event × Option Err :=
  match ensureGenericKernels net writeOk canon w with
  | (w1, ev1, some e) => (w1, .callEnsureSegmented key :: ev1, some e)
  | (w1, ev1, none) =>
      let manifest := manifests key
      let matching := selectSegments manifest tStart tEnd
      if matching.isEmpty then
        match manifest with
        | [] => (w1, .callEnsureSegmented key :: ev1, some (.emptyManifest key))
        | first :: rest =>
            (w1, .callEnsureSegmented key :: ev1,
             some (.noCoverage key tStart tEnd first.start (rest.getLastD first).stop))
      else
        match segLoop net writeOk canon matching w1 with
        | (w2, ev2, r) => (w2, .callEnsureSegmented key :: (ev1 ++ ev2), r)

/-- The world reached after `segLoop` has downloaded (size `n`) and loaded
one segment `a` and recorded it in `segmentedFilesLoaded`. -/
def wNext (canon : String → String) (a : Segment) (w : World) (n : Nat) : World :=
  ⟨{ (loadKernel canon a.file w.km).1 with
      segmentedFilesLoaded :=
        a.file :: ((loadKernel canon a.file w.km).1).segmentedFilesLoaded },
   Disk.set (Disk.del w.disk (withSuffixTmp a.file)) a.file n⟩

/-- `ephemeris._ensure_kernels` loop over the two resolved keys: a key is
given mission-specific treatment only when it is in `MISSION_KERNELS`. -/
def qlLoop (net : String → Except String Nat) (writeOk : String → Bool)
    (canon : String → String) : List String → World → World × List Event × Option Err
  | [], w => (w, [], none)
  | key :: rest, w =>
      if (lookupStr MISSION_KERNELS key).isSome then
        match ensureMissionKernels net writeOk canon key w with
        | (w', ev, some e) => (w', ev, some e)
        | (w', ev, none) =>
            match qlLoop net writeOk canon rest w' with
            | (w'', ev2, r) => (w'', ev ++ ev2, r)
      else qlLoop net writeOk canon rest w

/-- `ephemeris._ensure_kernels(target_key, observer_key)`: ensure generic
kernels, then the per-key loop.  The source takes no time range and never
dispatches to `ensure_segmented_kernels`. -/
def ensureKernelsQL (net : String → Except String Nat) (writeOk : String → Bool)
    (canon : String → String) (targetKey observerKey : String) (w : World) :
    World × List Event × Option Err :=
  match ensureGenericKernels net writeOk canon w with
  | (w1, ev1, some e) => (w1, ev1, some e)
  | (w1, ev1, none) =>
      match qlLoop net writeOk canon [targetKey, observerKey] w1 with
      | (w2, ev2, r) => (w2, ev1 ++ ev2, r)

/-- `_build_file_to_mission_map`: generic files map to GENERIC, mission
files to their mission key, segment-manifest files to their mission key;
later entries overwrite earlier ones (Python dict assignment). -/
def buildFileToMissionMap (manifests : String → List Segment) : List (String × String) :=
  GENERIC_KERNELS.map (fun p => (p.1, "GENERIC"))
    ++ (MISSION_KERNELS.map
          (fun m => m.2.map (fun p => (p.1, m.1)))).flatten
    ++ (SEGMENTED_MISSIONS.map
          (fun m => (manifests m.1).map (fun seg => (seg.file, m.1)))).flatten

/-- Last-write-wins dictionary lookup (Python dict assignment order). -/
def dictGet (m : List (String × String)) (k : String) : Option String :=
  (m.reverse.find? (fun p => p.1 == k)).map (fun p => p.2)

/-- Result record of `delete_cached_files` (`freed` in raw bytes, the
accumulator the reported megabyte figure is rounded from). -/
structure DeleteResult where
  deleted : List String
  freed : Nat
  errors : List String
deriving DecidableEq, Repr

/-- Remove every occurrence (Python `set.discard`). -/
def removeStr (l : List String) (k : String) : List String :=
  l.filter (fun x => !(x == k))

/-- Per-filename loop of `delete_cached_files`: absent files produce a
per-file error and the loop continues; present files are unloaded from the
SPICE pool when loaded, dropped from `segmentedFilesLoaded`, and unlinked,
accumulating freed bytes. -/
def deleteLoop (canon : String → String) :
    List String → World → World × List Event × DeleteResult
  | [], w => (w, [], ⟨[], 0, []⟩)
  | fname :: rest, w =>
      match Disk.get w.disk fname with
      | none =>
          match deleteLoop canon rest w with
          | (w', ev, r) =>
              (w', ev, ⟨r.deleted, r.freed, (fname ++ ": not found in cache") :: r.errors⟩)
      | some size =>
          let key := canon fname
          let (km1, ev1) :=
            if key ∈ w.km.loadedKernels then
              ({ w.km with loadedKernels := removeStr w.km.loadedKernels key },
               [Event.spiceUnload key, Event.mut .loadedKernels])
            else (w.km, [])
          let km2 :=
            { km1 with segmentedFilesLoaded := removeStr km1.segmentedFilesLoaded fname }
          let w1 : World := ⟨km2, Disk.del w.disk fname⟩
          match deleteLoop canon rest w1 with
          | (w', ev, r) =>
              (w', ev1 ++ Event.mut .segmentedFilesLoaded :: ev,
               ⟨fname :: r.deleted, size + r.freed, r.errors⟩)

/-- `delete_cached_files`: the whole body runs under the lock; after the
per-file loop, every mission owning a deleted file is dropped from
`missionKernelsLoaded`, and `genericLoaded` is reset when a generic file
was deleted. -/
def deleteCachedFiles (canon : String → String) (manifests : String → List Segment)
    (filenames : List String) (w : World) : World × List Event × DeleteResult :=
  match deleteLoop canon filenames w with
  | (w1, evLoop, r) =>
      let fileMap := dictGet (buildFileToMissionMap manifests)
      let invalidated := (r.deleted.filterMap fileMap).dedup
      let km1 :=
        { w1.km with missionKernelsLoaded :=
            w1.km.missionKernelsLoaded.filter (fun m => !(invalidated.contains m)) }
      let km2 :=
        if "GENERIC" ∈ invalidated then { km1 with genericLoaded := false } else km1
      let evPost :=
        Event.mut .missionKernelsLoaded ::
          (if "GENERIC" ∈ invalidated then [Event.mut .genericLoaded] else [])
      (⟨km2, w1.disk⟩, .acquire :: (evLoop ++ evPost ++ [.release]), r)

/-- Python `int()` applied to a rational: truncation toward zero. -/
def pyTrunc (q : ℚ) : Int :=
  if 0 ≤ q then ⌊q⌋ else -⌊-q⌋

/-- Grid parameters chosen by `get_trajectory`. -/
structure GridPlan where
  stepS : ℚ
  nSteps : Nat
  warned : Bool
deriving DecidableEq, Repr

/-- The grid-sizing logic of `get_trajectory`:
`n_steps = max(1, int((et_end - et_start) / step_s) + 1)`, capped at
100000 points by coarsening the step to fit 100001 points with a warning. -/
def planTrajectoryGrid (etStart etEnd stepS : ℚ) : GridPlan :=
  let nNaive : Int := max 1 (pyTrunc ((etEnd - etStart) / stepS) + 1)
  if nNaive > 100000 then
    ⟨(etEnd - etStart) / 100000, 100001, true⟩
  else
    ⟨stepS, nNaive.toNat, false⟩

/-! ### Trace analysis helpers -/

def Event.isFetch : Event → Bool
  | .fetch _ => true
  | _ => false

def Event.furnshKey : Event → Option String
  | .furnsh k => some k
  | _ => none

def Event.fetchUrl : Event → Option String
  | .fetch u => some u
  | _ => none

def Event.isCallSegmented : Event → Bool
  | .callEnsureSegmented _ => true
  | _ => false

def Event.isMutField : Event → Bool
  | .mut _ => true
  | _ => false

def Event.isSpiceCall : Event → Bool
  | .furnsh _ => true
  | .kclear => true
  | .spiceUnload _ => true
  | _ => false

/-- Walk a trace keeping the lock-recursion depth, checking that every
event selected by `needsLock` happens at positive depth. -/
def eventsLockedFrom (needsLock : Event → Bool) : Nat → List Event → Bool
  | _, [] => true
  | d, .acquire :: r => eventsLockedFrom needsLock (d + 1) r
  | d, .release :: r => eventsLockedFrom needsLock (d - 1) r
  | d, e :: r => (!(needsLock e) || decide (0 < d)) && eventsLockedFrom needsLock d r

/-- Lock-recursion depth after a trace. -/
def endDepth : Nat → List Event → Nat
  | d, [] => d
  | d, .acquire :: r => endDepth (d + 1) r
  | d, .release :: r => endDepth (d - 1) r
  | d, _ :: r => endDepth d r

/-- Every `CacheState` field mutation in the trace happens while the lock
is held. -/
def mutationsUnderLock (tr : List Event) : Bool :=
  eventsLockedFrom Event.isMutField 0 tr

/-- Every SPICE pool call (`furnsh`, `kclear`, `unload`) in the trace
happens while the lock is held. -/
def spiceCallsUnderLock (tr : List Event) : Bool :=
  eventsLockedFrom Event.isSpiceCall 0 tr

/-- Position of the first occurrence of `x`. -/
def firstIdxOf (l : List String) (x : String) : Nat :=
  (l.takeWhile (fun y => !(y == x))).length

/-! ### Concrete material for examples and witnesses -/

/-- Network oracle on which every fetch succeeds. -/
def allOkNet : String → Except String Nat := fun _ => .ok 1

/-- Write oracle on which every file write succeeds. -/
def allOkWrite : String → Bool := fun _ => true

def exSegA : Segment :=
  ⟨"seg_a.bsp", "https://example.com/seg_a.bsp", ⟨2004, 5, 14⟩, ⟨2004, 6, 19⟩⟩

def exSegB : Segment :=
  ⟨"seg_b.bsp", "https://example.com/seg_b.bsp", ⟨2004, 6, 19⟩, ⟨2004, 8, 1⟩⟩

def exSegC : Segment :=
  ⟨"seg_c.bsp", "https://example.com/seg_c.bsp", ⟨2005, 1, 1⟩, ⟨2005, 3, 1⟩⟩

def exManifest : List Segment := [exSegA, exSegB, exSegC]

/-- `N` successive calls of `ensure_generic_kernels`, accumulating the
performed events; a failure stops the iteration. -/
def iterGeneric (net : String → Except String Nat) (writeOk : String → Bool)
    (canon : String → String) : Nat → World → World × List Event × Option Err
  | 0, w => (w, [], none)
  | n + 1, w =>
      match ensureGenericKernels net writeOk canon w with
      | (w1, ev1, some e) => (w1, ev1, some e)
      | (w1, ev1, none) =>
          match iterGeneric net writeOk canon n w1 with
          | (w2, ev2, r) => (w2, ev1 ++ ev2, r)

/-- Fold a sequence of `load_kernel` calls over a state. -/
def loadMany (canon : String → String) (paths : List String) (s : KMState) : KMState :=
  paths.foldl (fun st p => (loadKernel canon p st).1) s

/-!
## Shared lemmas
-/

theorem ensureGeneric_noop {net : String → Except String Nat} {writeOk : String → Bool}
    {canon : String → String} {w : World} (hg : w.km.genericLoaded = true) :
    ensureGenericKernels net writeOk canon w = (w, [], none) := by
  simp [ensureGenericKernels, hg]

theorem Disk.get_del_self (d : Disk) (f : String) : Disk.get (Disk.del d f) f = none := by
  induction d with
  | nil => rfl
  | cons p rest ih =>
      by_cases hb : p.1 = f
      · simp only [Disk.del, List.filter_cons, hb, beq_self_eq_true, Bool.not_true,
          Bool.false_eq_true, if_false]
        exact ih
      · have hb' : (p.1 == f) = false := by simpa using hb
        simp only [Disk.del, Disk.get, List.filter_cons, hb', Bool.not_false, if_true,
          List.find?]
        exact ih

theorem Disk.get_del_ne (d : Disk) (f g : String) (h : g ≠ f) :
    Disk.get (Disk.del d f) g = Disk.get d g := by
  induction d with
  | nil => rfl
  | cons p rest ih =>
      by_cases hpf : p.1 = f
      · have hpg : (p.1 == g) = false := by
          simp only [beq_eq_false_iff_ne]
          exact fun hpg => h (hpg.symm.trans hpf)
        have hbf : (p.1 == f) = true := by simpa using hpf
        calc Disk.get (Disk.del (p :: rest) f) g = Disk.get (Disk.del rest f) g := by
              simp [Disk.del, List.filter_cons, hbf]
          _ = Disk.get rest g := ih
          _ = Disk.get (p :: rest) g := by simp [Disk.get, List.find?, hpg]
      · have hbf : (p.1 == f) = false := by simpa using hpf
        cases hbg : p.1 == g with
        | false =>
            have hleft : Disk.get (Disk.del (p :: rest) f) g = Disk.get (Disk.del rest f) g := by
              simp [Disk.del, Disk.get, List.filter_cons, hbf, List.find?, hbg]
            have hright : Disk.get (p :: rest) g = Disk.get rest g := by
              simp [Disk.get, List.find?, hbg]
            rw [hleft, hright]
            exact ih
        | true =>
            simp [Disk.del, Disk.get, List.filter_cons, hbf, List.find?, hbg]

theorem Disk.get_set_self (d : Disk) (f : String) (sz : Nat) :
    Disk.get (Disk.set d f sz) f = some sz := by
  simp [Disk.set, Disk.get, List.find?]

theorem Disk.get_set_ne (d : Disk) (f g : String) (sz : Nat) (h : g ≠ f) :
    Disk.get (Disk.set d f sz) g = Disk.get d g := by
  have hb : (f == g) = false := by
    simp only [beq_eq_false_iff_ne]
    exact fun hfg => h hfg.symm
  have h1 : Disk.get (Disk.set d f sz) g = Disk.get (Disk.del d f) g := by
    simp [Disk.set, Disk.get, List.find?, hb]
  rw [h1]
  exact Disk.get_del_ne d f g h

theorem loadKernel_genericLoaded (canon : String → String) (p : String) (s : KMState) :
    ((loadKernel canon p s).1).genericLoaded = s.genericLoaded := by
  simp only [loadKernel]
  split <;> rfl

theorem downloadAndLoad_genericLoaded (net : String → Except String Nat)
    (writeOk : String → Bool) (canon : String → String) (url f : String) (w : World) :
    (downloadAndLoad net writeOk canon url f w).1.km.genericLoaded = w.km.genericLoaded := by
  simp only [downloadAndLoad]
  cases hdk : downloadKernel net writeOk url f w.disk with
  | mk d' p =>
      cases p with
      | mk ev err =>
          cases err with
          | none => simp [loadKernel_genericLoaded]
          | some e => rfl

theorem genericLoop_genericLoaded (net : String → Except String Nat)
    (writeOk : String → Bool) (canon : String → String) (files : List String) (w : World) :
    (genericLoop net writeOk canon files w).1.km.genericLoaded = w.km.genericLoaded := by
  induction files generalizing w with
  | nil => rfl
  | cons f rest ih =>
      simp only [genericLoop]
      split
      · exact ih w
      · next url heq =>
          split
          · next w' ev e hdl =>
              have h1 := downloadAndLoad_genericLoaded net writeOk canon url f w
              rw [hdl] at h1
              exact h1
          · next w' ev hdl =>
              have h1 := downloadAndLoad_genericLoaded net writeOk canon url f w
              rw [hdl] at h1
              exact (ih w').trans h1

theorem iterGeneric_noop {net : String → Except String Nat} {writeOk : String → Bool}
    {canon : String → String} (n : Nat) {w : World} (hg : w.km.genericLoaded = true) :
    iterGeneric net writeOk canon n w = (w, [], none) := by
  induction n with
  | zero => rfl
  | succ m ih =>
      simp only [iterGeneric]
      rw [ensureGeneric_noop hg]
      simp [ih]

theorem iterGeneric_succ_of_ok {net : String → Except String Nat} {writeOk : String → Bool}
    {canon : String → String} {w w1 : World} {t1 : List Event} (M : Nat)
    (h : ensureGenericKernels net writeOk canon w = (w1, t1, none))
    (hg1 : w1.km.genericLoaded = true) :
    iterGeneric net writeOk canon (M + 1) w = (w1, t1, none) := by
  simp only [iterGeneric]
  rw [h]
  simp [iterGeneric_noop M hg1]

theorem eventsLockedFrom_append (P : Event → Bool) (d : Nat) (xs ys : List Event) :
    eventsLockedFrom P d (xs ++ ys) =
      (eventsLockedFrom P d xs && eventsLockedFrom P (endDepth d xs) ys) := by
  induction xs generalizing d with
  | nil => simp [eventsLockedFrom, endDepth]
  | cons e r ih =>
      cases e <;> simp [eventsLockedFrom, endDepth, ih, Bool.and_assoc]

theorem endDepth_append (d : Nat) (xs ys : List Event) :
    endDepth d (xs ++ ys) = endDepth (endDepth d xs) ys := by
  induction xs generalizing d with
  | nil => simp [endDepth]
  | cons e r ih => cases e <;> simp [endDepth, ih]

/-- A trace without lock events keeps the depth unchanged. -/
theorem endDepth_flat (tr : List Event)
    (hflat : ∀ e ∈ tr, e ≠ Event.acquire ∧ e ≠ Event.release) (d : Nat) :
    endDepth d tr = d := by
  induction tr with
  | nil => rfl
  | cons e r ih =>
      have he := hflat e (by simp)
      have hr : ∀ x ∈ r, x ≠ Event.acquire ∧ x ≠ Event.release :=
        fun x hx => hflat x (by simp [hx])
      cases e <;> simp_all [endDepth]

/-- A trace without lock events passes the lock check at positive depth. -/
theorem eventsLockedFrom_flat (P : Event → Bool) (tr : List Event)
    (hflat : ∀ e ∈ tr, e ≠ Event.acquire ∧ e ≠ Event.release) (d : Nat) (hd : 0 < d) :
    eventsLockedFrom P d tr = true := by
  induction tr with
  | nil => rfl
  | cons e r ih =>
      have he := hflat e (by simp)
      have hr : ∀ x ∈ r, x ≠ Event.acquire ∧ x ≠ Event.release :=
        fun x hx => hflat x (by simp [hx])
      cases e <;> simp_all [eventsLockedFrom]

/-- A trace is lock-safe for a predicate when it passes the check from any
ambient depth and is balanced. -/
def LockSafe (P : Event → Bool) (tr : List Event) : Prop :=
  ∀ d : Nat, eventsLockedFrom P d tr = true ∧ endDepth d tr = d

theorem LockSafe.nil (P : Event → Bool) : LockSafe P [] :=
  fun _ => ⟨rfl, rfl⟩

theorem LockSafe.append {P : Event → Bool} {xs ys : List Event}
    (hx : LockSafe P xs) (hy : LockSafe P ys) : LockSafe P (xs ++ ys) := by
  intro d
  constructor
  · rw [eventsLockedFrom_append, (hx d).1, (hx d).2, (hy d).1]
    rfl
  · rw [endDepth_append, (hx d).2, (hy d).2]

theorem LockSafe.flat {P : Event → Bool} {tr : List Event}
    (hflat : ∀ e ∈ tr, e ≠ Event.acquire ∧ e ≠ Event.release)
    (hP : ∀ e ∈ tr, P e = false) : LockSafe P tr := by
  intro d
  refine ⟨?_, endDepth_flat tr hflat d⟩
  induction tr with
  | nil => rfl
  | cons e r ih =>
      have he := hflat e (by simp)
      have hpe := hP e (by simp)
      have hr : ∀ x ∈ r, x ≠ Event.acquire ∧ x ≠ Event.release :=
        fun x hx => hflat x (by simp [hx])
      have hPr : ∀ x ∈ r, P x = false := fun x hx => hP x (by simp [hx])
      cases e <;> simp_all [eventsLockedFrom]

theorem lockSafe_loadKernel (P : Event → Bool) (canon : String → String) (p : String)
    (s : KMState) : LockSafe P (loadKernel canon p s).2 := by
  intro d
  constructor <;> (simp only [loadKernel]; split <;> simp [eventsLockedFrom, endDepth])

theorem downloadKernel_trace_cases (net : String → Except String Nat)
    (writeOk : String → Bool) (url f : String) (d : Disk) :
    (downloadKernel net writeOk url f d).2.1 = [] ∨
      (downloadKernel net writeOk url f d).2.1 = [.fetch url] := by
  simp only [downloadKernel]
  split
  · exact Or.inl rfl
  · split
    · exact Or.inr rfl
    · split
      · exact Or.inr rfl
      · exact Or.inr rfl

theorem lockSafe_downloadKernel (P : Event → Bool) (hfetch : ∀ u, P (.fetch u) = false)
    (net : String → Except String Nat) (writeOk : String → Bool) (url f : String)
    (d : Disk) : LockSafe P (downloadKernel net writeOk url f d).2.1 := by
  rcases downloadKernel_trace_cases net writeOk url f d with h | h <;> rw [h]
  · exact LockSafe.nil P
  · exact LockSafe.flat (by simp) (by simp [hfetch])

theorem lockSafe_downloadAndLoad (P : Event → Bool) (hfetch : ∀ u, P (.fetch u) = false)
    (net : String → Except String Nat) (writeOk : String → Bool)
    (canon : String → String) (url f : String) (w : World) :
    LockSafe P (downloadAndLoad net writeOk canon url f w).2.1 := by
  have hdk := lockSafe_downloadKernel P hfetch net writeOk url f w.disk
  simp only [downloadAndLoad]
  split
  · next d' ev e hdl =>
      rw [hdl] at hdk
      exact hdk
  · next d' ev hdl =>
      rw [hdl] at hdk
      exact LockSafe.append hdk (lockSafe_loadKernel P canon f w.km)

theorem LockSafe.consFlat {P : Event → Bool} {e : Event} {tr : List Event}
    (he : e ≠ Event.acquire ∧ e ≠ Event.release) (hPe : P e = false)
    (h : LockSafe P tr) : LockSafe P (e :: tr) := by
  have h1 : LockSafe P ([e] ++ tr) :=
    LockSafe.append
      (LockSafe.flat (by intro x hx; simp at hx; subst hx; exact he)
        (by intro x hx; simp at hx; subst hx; exact hPe)) h
  simpa using h1

theorem lockSafe_genericLoop (P : Event → Bool) (hfetch : ∀ u, P (.fetch u) = false)
    (net : String → Except String Nat) (writeOk : String → Bool)
    (canon : String → String) (files : List String) (w : World) :
    LockSafe P (genericLoop net writeOk canon files w).2.1 := by
  induction files generalizing w with
  | nil => exact LockSafe.nil P
  | cons f rest ih =>
      simp only [genericLoop]
      split
      · exact ih w
      · next url heq =>
          split
          · next w' ev e hdl =>
              have h := lockSafe_downloadAndLoad P hfetch net writeOk canon url f w
              rw [hdl] at h
              exact h
          · next w' ev hdl =>
              have h := lockSafe_downloadAndLoad P hfetch net writeOk canon url f w
              rw [hdl] at h
              exact LockSafe.append h (ih w')

theorem lockSafe_missionLoop (P : Event → Bool) (hfetch : ∀ u, P (.fetch u) = false)
    (net : String → Except String Nat) (writeOk : String → Bool)
    (canon : String → String) (kernels : List (String × String)) (w : World) :
    LockSafe P (missionLoop net writeOk canon kernels w).2.1 := by
  induction kernels generalizing w with
  | nil => exact LockSafe.nil P
  | cons fu rest ih =>
      simp only [missionLoop]
      split
      · next w' ev e hdl =>
          have h := lockSafe_downloadAndLoad P hfetch net writeOk canon fu.2 fu.1 w
          rw [hdl] at h
          exact h
      · next w' ev hdl =>
          have h := lockSafe_downloadAndLoad P hfetch net writeOk canon fu.2 fu.1 w
          rw [hdl] at h
          exact LockSafe.append h (ih w')

theorem lockSafe_ensureGeneric (P : Event → Bool) (hfetch : ∀ u, P (.fetch u) = false)
    (hmut : ∀ fl, P (.mut fl) = false) (net : String → Except String Nat)
    (writeOk : String → Bool) (canon : String → String) (w : World) :
    LockSafe P (ensureGenericKernels net writeOk canon w).2.1 := by
  simp only [ensureGenericKernels]
  split
  · exact LockSafe.nil P
  · split
    · next w' ev e hloop =>
        have h := lockSafe_genericLoop P hfetch net writeOk canon orderedGenericFiles w
        rw [hloop] at h
        exact h
    · next w' ev hloop =>
        have h := lockSafe_genericLoop P hfetch net writeOk canon orderedGenericFiles w
        rw [hloop] at h
        refine LockSafe.append h (LockSafe.flat ?_ ?_)
        · intro e he
          simp at he
          subst he
          exact ⟨by simp, by simp⟩
        · intro e he
          simp at he
          subst he
          exact hmut _

theorem lockSafe_ensureMission (P : Event → Bool) (hfetch : ∀ u, P (.fetch u) = false)
    (hmut : ∀ fl, P (.mut fl) = false)
    (hcallM : ∀ k, P (.callEnsureMission k) = false)
    (net : String → Except String Nat) (writeOk : String → Bool)
    (canon : String → String) (key : String) (w : World) :
    LockSafe P (ensureMissionKernels net writeOk canon key w).2.1 := by
  have hg := lockSafe_ensureGeneric P hfetch hmut net writeOk canon w
  have hcons : ∀ tr : List Event, LockSafe P tr →
      LockSafe P (Event.callEnsureMission key :: tr) := by
    intro tr h
    exact LockSafe.consFlat ⟨by simp, by simp⟩ (hcallM key) h
  simp only [ensureMissionKernels]
  split
  · exact hcons [] (LockSafe.nil P)
  · split
    · next w1 ev1 e hge =>
        rw [hge] at hg
        exact hcons ev1 hg
    · next w1 ev1 hge =>
        rw [hge] at hg
        split
        · split
          · exact hcons ev1 hg
          · exact hcons ev1 hg
        · next kernels hker =>
            have hg1 : LockSafe P ev1 := hg
            have hml := lockSafe_missionLoop P hfetch net writeOk canon kernels w1
            split
            · next w2 ev2 e hloop =>
                rw [hloop] at hml
                have hml1 : LockSafe P ev2 := hml
                exact hcons _ (LockSafe.append hg1 hml1)
            · next w2 ev2 hloop =>
                rw [hloop] at hml
                have hml1 : LockSafe P ev2 := hml
                refine hcons _ (LockSafe.append (LockSafe.append hg1 hml1) (LockSafe.flat ?_ ?_))
                · intro e he
                  simp at he
                  subst he
                  exact ⟨by simp, by simp⟩
                · intro e he
                  simp at he
                  subst he
                  exact hmut _

theorem lockSafe_segLoop (P : Event → Bool) (hfetch : ∀ u, P (.fetch u) = false)
    (hmut : ∀ fl, P (.mut fl) = false) (net : String → Except String Nat)
    (writeOk : String → Bool) (canon : String → String) (segs : List Segment) (w : World) :
    LockSafe P (segLoop net writeOk canon segs w).2.1 := by
  induction segs generalizing w with
  | nil => exact LockSafe.nil P
  | cons seg rest ih =>
      simp only [segLoop]
      split
      · exact ih w
      · split
        · next w' ev e hdl =>
            have h := lockSafe_downloadAndLoad P hfetch net writeOk canon seg.url seg.file w
            rw [hdl] at h
            exact h
        · next w' ev hdl =>
            have h := lockSafe_downloadAndLoad P hfetch net writeOk canon seg.url seg.file w
            rw [hdl] at h
            exact LockSafe.append h
              (LockSafe.consFlat ⟨by simp, by simp⟩ (hmut _) (ih _))

theorem lockSafe_ensureSegmented (P : Event → Bool) (hfetch : ∀ u, P (.fetch u) = false)
    (hmut : ∀ fl, P (.mut fl) = false)
    (hcallS : ∀ k, P (.callEnsureSegmented k) = false)
    (net : String → Except String Nat) (writeOk : String → Bool)
    (canon : String → String) (manifests : String → List Segment)
    (key : String) (ts te : Date) (w : World) :
    LockSafe P (ensureSegmentedKernels net writeOk canon manifests key ts te w).2.1 := by
  have hg := lockSafe_ensureGeneric P hfetch hmut net writeOk canon w
  have hcons : ∀ tr : List Event, LockSafe P tr →
      LockSafe P (Event.callEnsureSegmented key :: tr) := by
    intro tr h
    exact LockSafe.consFlat ⟨by simp, by simp⟩ (hcallS key) h
  simp only [ensureSegmentedKernels]
  split
  · next w1 ev1 e hge =>
      rw [hge] at hg
      exact hcons ev1 hg
  · next w1 ev1 hge =>
      rw [hge] at hg
      split
      · split
        · exact hcons ev1 hg
        · exact hcons ev1 hg
      · have hg1 : LockSafe P ev1 := hg
        have hsl := lockSafe_segLoop P hfetch hmut net writeOk canon
          (selectSegments (manifests key) ts te) w1
        exact hcons _ (LockSafe.append hg1 hsl)

theorem lockSafe_qlLoop (P : Event → Bool) (hfetch : ∀ u, P (.fetch u) = false)
    (hmut : ∀ fl, P (.mut fl) = false)
    (hcallM : ∀ k, P (.callEnsureMission k) = false)
    (net : String → Except String Nat) (writeOk : String → Bool)
    (canon : String → String) (keys : List String) (w : World) :
    LockSafe P (qlLoop net writeOk canon keys w).2.1 := by
  induction keys generalizing w with
  | nil => exact LockSafe.nil P
  | cons key rest ih =>
      simp only [qlLoop]
      split
      · have hem := lockSafe_ensureMission P hfetch hmut hcallM net writeOk canon key w
        split
        · next w' ev e hm =>
            rw [hm] at hem
            exact hem
        · next w' ev hm =>
            rw [hm] at hem
            exact LockSafe.append hem (ih w')
      · exact ih w

theorem lockSafe_ensureKernelsQL (P : Event → Bool) (hfetch : ∀ u, P (.fetch u) = false)
    (hmut : ∀ fl, P (.mut fl) = false)
    (hcallM : ∀ k, P (.callEnsureMission k) = false)
    (net : String → Except String Nat) (writeOk : String → Bool)
    (canon : String → String) (t o : String) (w : World) :
    LockSafe P (ensureKernelsQL net writeOk canon t o w).2.1 := by
  have hg := lockSafe_ensureGeneric P hfetch hmut net writeOk canon w
  simp only [ensureKernelsQL]
  split
  · next w1 ev1 e hge =>
      rw [hge] at hg
      exact hg
  · next w1 ev1 hge =>
      rw [hge] at hg
      have hg1 : LockSafe P ev1 := hg
      have hql := lockSafe_qlLoop P hfetch hmut hcallM net writeOk canon [t, o] w1
      exact LockSafe.append hg1 hql

theorem deleteLoop_flat (canon : String → String) (filenames : List String) (w : World) :
    ∀ e ∈ (deleteLoop canon filenames w).2.1,
      e ≠ Event.acquire ∧ e ≠ Event.release := by
  induction filenames generalizing w with
  | nil => intro e he; simp [deleteLoop] at he
  | cons fname rest ih =>
      intro e he
      simp only [deleteLoop] at he
      revert he
      split
      · next hget =>
          intro he
          exact ih w e he
      · next size hget =>
          split
          · next km1ev hmem =>
              intro he
              simp at he
              rcases he with he | he | he
              · subst he; exact ⟨by simp, by simp⟩
              · subst he; exact ⟨by simp, by simp⟩
              · rcases he with he | he
                · subst he; exact ⟨by simp, by simp⟩
                · exact ih _ e he
          · next hmem =>
              intro he
              simp at he
              rcases he with he | he
              · subst he; exact ⟨by simp, by simp⟩
              · exact ih _ e he

theorem mutationsUnderLock_wrap (P : Event → Bool) (evLoop evPost : List Event)
    (h1 : ∀ e ∈ evLoop, e ≠ Event.acquire ∧ e ≠ Event.release)
    (h2 : ∀ e ∈ evPost, e ≠ Event.acquire ∧ e ≠ Event.release) :
    eventsLockedFrom P 0 (.acquire :: (evLoop ++ evPost ++ [.release])) = true := by
  have hflat : ∀ e ∈ evLoop ++ evPost, e ≠ Event.acquire ∧ e ≠ Event.release := by
    intro e he
    rcases List.mem_append.1 he with h | h
    exacts [h1 e h, h2 e h]
  simp only [eventsLockedFrom]
  rw [eventsLockedFrom_append, eventsLockedFrom_flat P _ hflat (0 + 1) (by omega),
    endDepth_flat _ hflat (0 + 1)]
  simp [eventsLockedFrom]

theorem loadKernel_mem_self (canon : String → String) (p : String) (s : KMState) :
    canon p ∈ ((loadKernel canon p s).1).loadedKernels := by
  simp only [loadKernel]
  split
  · next h => exact h
  · exact List.mem_cons_self _ _

theorem loadKernel_loaded_mono (canon : String → String) (p : String) (s : KMState)
    {k : String} (h : k ∈ s.loadedKernels) :
    k ∈ ((loadKernel canon p s).1).loadedKernels := by
  simp only [loadKernel]
  split
  · exact h
  · exact List.mem_cons_of_mem _ h

theorem loadKernel_segLoaded (canon : String → String) (p : String) (s : KMState) :
    ((loadKernel canon p s).1).segmentedFilesLoaded = s.segmentedFilesLoaded := by
  simp only [loadKernel]
  split <;> rfl

theorem segLoop_skip (net : String → Except String Nat) (writeOk : String → Bool)
    (canon : String → String) (A rest : List Segment) (w : World)
    (h : ∀ a ∈ A, a.file ∈ w.km.segmentedFilesLoaded) :
    segLoop net writeOk canon (A ++ rest) w = segLoop net writeOk canon rest w := by
  induction A with
  | nil => rfl
  | cons a A' ih =>
      simp only [List.cons_append, segLoop]
      rw [if_pos (h a (by simp))]
      exact ih (fun x hx => h x (by simp [hx]))

theorem segLoop_head_fail (net : String → Except String Nat) (writeOk : String → Bool)
    (canon : String → String) (b : Segment) (C : List Segment) (w : World) (msg : String)
    (hl : b.file ∉ w.km.segmentedFilesLoaded) (hd : Disk.get w.disk b.file = none)
    (hn : net b.url = .error msg) :
    segLoop net writeOk canon (b :: C) w =
      (w, [.fetch b.url], some (.downloadFailed b.file b.url msg)) := by
  simp [segLoop, hl, downloadAndLoad, downloadKernel, Disk.cachedNonEmpty, hd, hn]

theorem segLoop_fail_mid (net : String → Except String Nat) (writeOk : String → Bool)
    (canon : String → String) (b : Segment) (C : List Segment) (msg : String) :
    ∀ (A : List Segment) (w : World),
    ((A ++ [b]).map Segment.file).Nodup →
    (∀ a ∈ A, Disk.get w.disk a.file = none ∧ a.file ∉ w.km.segmentedFilesLoaded ∧
        (∃ n, net a.url = Except.ok n) ∧ writeOk a.file = true) →
    Disk.get w.disk b.file = none →
    b.file ∉ w.km.segmentedFilesLoaded →
    net b.url = Except.error msg →
    (segLoop net writeOk canon (A ++ b :: C) w).2.2 =
        some (Err.downloadFailed b.file b.url msg) ∧
    (segLoop net writeOk canon (A ++ b :: C) w).1.km.segmentedFilesLoaded =
        (A.map Segment.file).reverse ++ w.km.segmentedFilesLoaded ∧
    (∀ a ∈ A, canon a.file ∈
        (segLoop net writeOk canon (A ++ b :: C) w).1.km.loadedKernels) ∧
    (∀ k ∈ w.km.loadedKernels,
        k ∈ (segLoop net writeOk canon (A ++ b :: C) w).1.km.loadedKernels) ∧
    (segLoop net writeOk canon (A ++ b :: C) w).1.km.genericLoaded =
        w.km.genericLoaded ∧
    Disk.get (segLoop net writeOk canon (A ++ b :: C) w).1.disk b.file = none := by
  intro A
  induction A with
  | nil =>
      intro w _hND _hA hbd hbl hbn
      rw [List.nil_append, segLoop_head_fail net writeOk canon b C w msg hbl hbd hbn]
      exact ⟨rfl, by simp, by simp, fun k hk => hk, rfl, hbd⟩
  | cons a A' ih =>
      intro w hND hA hbd hbl hbn
      obtain ⟨had, hal, ⟨n, hanet⟩, haw⟩ := hA a (by simp)
      have hND1 : (a.file :: (A' ++ [b]).map Segment.file).Nodup := by simpa using hND
      have hnotin : a.file ∉ (A' ++ [b]).map Segment.file := (List.nodup_cons.1 hND1).1
      have hND' : ((A' ++ [b]).map Segment.file).Nodup := (List.nodup_cons.1 hND1).2
      have hne_b : a.file ≠ b.file := by
        intro h
        exact hnotin (by rw [h]; simp)
      have hdl : downloadAndLoad net writeOk canon a.url a.file w =
          (⟨(loadKernel canon a.file w.km).1,
            Disk.set (Disk.del w.disk (withSuffixTmp a.file)) a.file n⟩,
           [Event.fetch a.url] ++ (loadKernel canon a.file w.km).2, none) := by
        simp [downloadAndLoad, downloadKernel, Disk.cachedNonEmpty, had, hanet, haw]
      have hstep : segLoop net writeOk canon ((a :: A') ++ b :: C) w =
          ((segLoop net writeOk canon (A' ++ b :: C) (wNext canon a w n)).1,
           ([Event.fetch a.url] ++ (loadKernel canon a.file w.km).2) ++
             Event.mut Field.segmentedFilesLoaded ::
               (segLoop net writeOk canon (A' ++ b :: C) (wNext canon a w n)).2.1,
           (segLoop net writeOk canon (A' ++ b :: C) (wNext canon a w n)).2.2) := by
        simp only [List.cons_append, segLoop]
        rw [if_neg hal, hdl]
        rfl
      have hwseg : (wNext canon a w n).km.segmentedFilesLoaded =
          a.file :: w.km.segmentedFilesLoaded := by
        simp [wNext, loadKernel_segLoaded]
      have hA' : ∀ x ∈ A', Disk.get (wNext canon a w n).disk x.file = none ∧
          x.file ∉ (wNext canon a w n).km.segmentedFilesLoaded ∧
          (∃ m, net x.url = Except.ok m) ∧ writeOk x.file = true := by
        intro x hx
        obtain ⟨hxd, hxl, hxn, hxw⟩ := hA x (by simp [hx])
        have hxa : x.file ≠ a.file := by
          intro h
          refine hnotin ?_
          rw [← h]
          exact List.mem_map_of_mem _ (by simp [hx])
        refine ⟨?_, ?_, hxn, hxw⟩
        · show Disk.get (Disk.set (Disk.del w.disk (withSuffixTmp a.file)) a.file n) x.file
            = none
          rw [Disk.get_set_ne _ _ _ _ hxa]
          by_cases hxt : x.file = withSuffixTmp a.file
          · rw [hxt]
            exact Disk.get_del_self _ _
          · rw [Disk.get_del_ne _ _ _ hxt]
            exact hxd
        · rw [hwseg]
          simp only [List.mem_cons, not_or]
          exact ⟨hxa, hxl⟩
      have hbd' : Disk.get (wNext canon a w n).disk b.file = none := by
        show Disk.get (Disk.set (Disk.del w.disk (withSuffixTmp a.file)) a.file n) b.file
          = none
        rw [Disk.get_set_ne _ _ _ _ (Ne.symm hne_b)]
        by_cases hbt : b.file = withSuffixTmp a.file
        · rw [hbt]
          exact Disk.get_del_self _ _
        · rw [Disk.get_del_ne _ _ _ hbt]
          exact hbd
      have hbl' : b.file ∉ (wNext canon a w n).km.segmentedFilesLoaded := by
        rw [hwseg]
        simp only [List.mem_cons, not_or]
        exact ⟨Ne.symm hne_b, hbl⟩
      have hI := ih (wNext canon a w n) hND' hA' hbd' hbl' hbn
      rw [hstep]
      refine ⟨hI.1, ?_, ?_, ?_, ?_, hI.2.2.2.2.2⟩
      · calc (segLoop net writeOk canon (A' ++ b :: C) (wNext canon a w n)).1.km.segmentedFilesLoaded
            = (A'.map Segment.file).reverse ++
                (wNext canon a w n).km.segmentedFilesLoaded := hI.2.1
          _ = (A'.map Segment.file).reverse ++
                (a.file :: w.km.segmentedFilesLoaded) := by rw [hwseg]
          _ = ((a :: A').map Segment.file).reverse ++ w.km.segmentedFilesLoaded := by
                simp
      · intro x hx
        rcases List.mem_cons.1 hx with rfl | hx'
        · refine hI.2.2.2.1 (canon x.file) ?_
          show canon x.file ∈ ((loadKernel canon x.file w.km).1).loadedKernels
          exact loadKernel_mem_self canon x.file w.km
        · exact hI.2.2.1 x hx'
      · intro k hk
        refine hI.2.2.2.1 k ?_
        show k ∈ ((loadKernel canon a.file w.km).1).loadedKernels
        exact loadKernel_loaded_mono canon a.file w.km hk
      · calc (segLoop net writeOk canon (A' ++ b :: C) (wNext canon a w n)).1.km.genericLoaded
            = (wNext canon a w n).km.genericLoaded := hI.2.2.2.2.1
          _ = w.km.genericLoaded := by
                show ((loadKernel canon a.file w.km).1).genericLoaded = w.km.genericLoaded
                exact loadKernel_genericLoaded canon a.file w.km

theorem mem_removeStr {l : List String} {k x : String} :
    x ∈ removeStr l k ↔ x ∈ l ∧ x ≠ k := by
  simp [removeStr, List.mem_filter]

theorem loadKernel_count_le_one (canon : String → String) (p : String) (s : KMState)
    (h : ∀ key, s.loadedKernels.count key ≤ 1) :
    ∀ key, ((loadKernel canon p s).1).loadedKernels.count key ≤ 1 := by
  intro key
  by_cases hm : canon p ∈ s.loadedKernels
  · simpa [loadKernel, hm] using h key
  · simp only [loadKernel, if_neg hm]
    by_cases hk : key = canon p
    · have h0 : s.loadedKernels.count (canon p) = 0 := List.count_eq_zero_of_not_mem hm
      subst hk
      simp [List.count_cons, h0]
    · simpa [List.count_cons, hk] using h key

theorem deleteLoop_spec (canon : String → String) :
    ∀ (filenames : List String) (w : World), filenames.Nodup →
    ((deleteLoop canon filenames w).2.2.deleted =
        filenames.filter (fun f => (Disk.get w.disk f).isSome)) ∧
    ((deleteLoop canon filenames w).2.2.errors =
        (filenames.filter (fun f => !(Disk.get w.disk f).isSome)).map
          (fun f => f ++ ": not found in cache")) ∧
    ((deleteLoop canon filenames w).2.2.freed =
        (((deleteLoop canon filenames w).2.2.deleted).filterMap
          (fun f => Disk.get w.disk f)).sum) ∧
    (∀ f : String, Disk.get (deleteLoop canon filenames w).1.disk f =
        if f ∈ filenames ∧ (Disk.get w.disk f).isSome = true then none
        else Disk.get w.disk f) ∧
    (∀ k : String, k ∈ (deleteLoop canon filenames w).1.km.loadedKernels ↔
        k ∈ w.km.loadedKernels ∧
          k ∉ ((deleteLoop canon filenames w).2.2.deleted).map canon) ∧
    (∀ x : String, x ∈ (deleteLoop canon filenames w).1.km.segmentedFilesLoaded ↔
        x ∈ w.km.segmentedFilesLoaded ∧
          x ∉ (deleteLoop canon filenames w).2.2.deleted) ∧
    ((deleteLoop canon filenames w).1.km.missionKernelsLoaded =
        w.km.missionKernelsLoaded) ∧
    ((deleteLoop canon filenames w).1.km.genericLoaded = w.km.genericLoaded) := by
  intro filenames
  induction filenames with
  | nil =>
      intro w _
      refine ⟨rfl, rfl, rfl, ?_, ?_, ?_, rfl, rfl⟩
      · intro f
        simp [deleteLoop]
      · intro k
        simp [deleteLoop]
      · intro x
        simp [deleteLoop]
  | cons fname rest ih =>
      intro w hnd
      have hfn : fname ∉ rest := (List.nodup_cons.1 hnd).1
      have hnd' : rest.Nodup := (List.nodup_cons.1 hnd).2
      cases hget : Disk.get w.disk fname with
      | none =>
          have hstep : deleteLoop canon (fname :: rest) w =
              ((deleteLoop canon rest w).1, (deleteLoop canon rest w).2.1,
               ⟨(deleteLoop canon rest w).2.2.deleted, (deleteLoop canon rest w).2.2.freed,
                (fname ++ ": not found in cache") :: (deleteLoop canon rest w).2.2.errors⟩) := by
            simp only [deleteLoop]
            rw [hget]
          have hI := ih w hnd'
          rw [hstep]
          refine ⟨?_, ?_, ?_, ?_, ?_, ?_, ?_, ?_⟩
          · show (deleteLoop canon rest w).2.2.deleted =
              (fname :: rest).filter (fun f => (Disk.get w.disk f).isSome)
            rw [List.filter_cons]
            simp only [hget, Option.isSome_none, Bool.false_eq_true, if_false]
            exact hI.1
          · show (fname ++ ": not found in cache") :: (deleteLoop canon rest w).2.2.errors =
              ((fname :: rest).filter (fun f => !(Disk.get w.disk f).isSome)).map
                (fun f => f ++ ": not found in cache")
            rw [List.filter_cons]
            simp only [hget, Option.isSome_none, Bool.not_false, if_true, List.map_cons]
            rw [hI.2.1]
          · show (deleteLoop canon rest w).2.2.freed =
              (((deleteLoop canon rest w).2.2.deleted).filterMap
                (fun f => Disk.get w.disk f)).sum
            exact hI.2.2.1
          · intro f
            show Disk.get (deleteLoop canon rest w).1.disk f =
              if f ∈ fname :: rest ∧ (Disk.get w.disk f).isSome = true then none
              else Disk.get w.disk f
            rw [hI.2.2.2.1 f]
            by_cases hf : f = fname
            · subst hf
              simp [hget, hfn]
            · simp [List.mem_cons, hf]
          · intro k
            exact hI.2.2.2.2.1 k
          · intro x
            exact hI.2.2.2.2.2.1 x
          · exact hI.2.2.2.2.2.2.1
          · exact hI.2.2.2.2.2.2.2
      | some size =>
          have hcongrSome : ∀ (d1 : Disk), (∀ g ∈ rest, Disk.get d1 g = Disk.get w.disk g) →
              rest.filter (fun f => (Disk.get d1 f).isSome) =
                rest.filter (fun f => (Disk.get w.disk f).isSome) :=
            fun d1 hcg => List.filter_congr (fun g hg => by rw [hcg g hg])
          by_cases hmem : canon fname ∈ w.km.loadedKernels
          · have hstep : deleteLoop canon (fname :: rest) w =
                ((deleteLoop canon rest
                    ⟨{ w.km with
                        loadedKernels := removeStr w.km.loadedKernels (canon fname),
                        segmentedFilesLoaded :=
                          removeStr w.km.segmentedFilesLoaded fname },
                      Disk.del w.disk fname⟩).1,
                 [Event.spiceUnload (canon fname), Event.mut .loadedKernels] ++
                   Event.mut .segmentedFilesLoaded ::
                     (deleteLoop canon rest
                        ⟨{ w.km with
                            loadedKernels := removeStr w.km.loadedKernels (canon fname),
                            segmentedFilesLoaded :=
                              removeStr w.km.segmentedFilesLoaded fname },
                          Disk.del w.disk fname⟩).2.1,
                 ⟨fname :: (deleteLoop canon rest
                      ⟨{ w.km with
                          loadedKernels := removeStr w.km.loadedKernels (canon fname),
                          segmentedFilesLoaded :=
                            removeStr w.km.segmentedFilesLoaded fname },
                        Disk.del w.disk fname⟩).2.2.deleted,
                  size + (deleteLoop canon rest
                      ⟨{ w.km with
                          loadedKernels := removeStr w.km.loadedKernels (canon fname),
                          segmentedFilesLoaded :=
                            removeStr w.km.segmentedFilesLoaded fname },
                        Disk.del w.disk fname⟩).2.2.freed,
                  (deleteLoop canon rest
                      ⟨{ w.km with
                          loadedKernels := removeStr w.km.loadedKernels (canon fname),
                          segmentedFilesLoaded :=
                            removeStr w.km.segmentedFilesLoaded fname },
                        Disk.del w.disk fname⟩).2.2.errors⟩) := by
              simp only [deleteLoop]
              rw [hget, if_pos hmem]
            rw [hstep]
            have hgdel : ∀ g ∈ rest, Disk.get (Disk.del w.disk fname) g = Disk.get w.disk g :=
              fun g hg => Disk.get_del_ne _ _ _ (fun h => hfn (h ▸ hg))
            have hI := ih
              ⟨{ w.km with
                  loadedKernels := removeStr w.km.loadedKernels (canon fname),
                  segmentedFilesLoaded := removeStr w.km.segmentedFilesLoaded fname },
                Disk.del w.disk fname⟩ hnd'
            have hdel : (deleteLoop canon rest
                ⟨{ w.km with
                    loadedKernels := removeStr w.km.loadedKernels (canon fname),
                    segmentedFilesLoaded := removeStr w.km.segmentedFilesLoaded fname },
                  Disk.del w.disk fname⟩).2.2.deleted =
                rest.filter (fun f => (Disk.get w.disk f).isSome) := by
              rw [hI.1]
              exact hcongrSome _ hgdel
            have hsubrest : ∀ g ∈ (deleteLoop canon rest
                ⟨{ w.km with
                    loadedKernels := removeStr w.km.loadedKernels (canon fname),
                    segmentedFilesLoaded := removeStr w.km.segmentedFilesLoaded fname },
                  Disk.del w.disk fname⟩).2.2.deleted, g ∈ rest := by
              intro g hg
              rw [hdel] at hg
              exact (List.mem_filter.1 hg).1
            refine ⟨?_, ?_, ?_, ?_, ?_, ?_, ?_, ?_⟩
            · show fname :: _ = (fname :: rest).filter (fun f => (Disk.get w.disk f).isSome)
              rw [List.filter_cons]
              simp only [hget, Option.isSome_some, if_true]
              rw [hdel]
            · show (deleteLoop canon rest _).2.2.errors =
                ((fname :: rest).filter (fun f => !(Disk.get w.disk f).isSome)).map
                  (fun f => f ++ ": not found in cache")
              rw [List.filter_cons]
              simp only [hget, Option.isSome_some, Bool.not_true, Bool.false_eq_true,
                if_false]
              rw [hI.2.1]
              congr 1
              refine List.filter_congr (fun g hg => ?_)
              rw [hgdel g hg]
            · show size + (deleteLoop canon rest _).2.2.freed =
                ((fname :: (deleteLoop canon rest _).2.2.deleted).filterMap
                  (fun f => Disk.get w.disk f)).sum
              rw [List.filterMap_cons]
              simp only [hget]
              rw [List.sum_cons, hI.2.2.1]
              refine congrArg (fun t => size + t) (congrArg List.sum ?_)
              refine List.filterMap_congr (fun g hg => ?_)
              exact hgdel g (hsubrest g hg)
            · intro f
              show Disk.get (deleteLoop canon rest _).1.disk f =
                if f ∈ fname :: rest ∧ (Disk.get w.disk f).isSome = true then none
                else Disk.get w.disk f
              rw [hI.2.2.2.1 f]
              by_cases hf : f = fname
              · subst hf
                rw [Disk.get_del_self]
                simp [hget, hfn]
              · rw [Disk.get_del_ne _ _ _ hf]
                simp [List.mem_cons, hf]
            · intro k
              show k ∈ (deleteLoop canon rest _).1.km.loadedKernels ↔
                k ∈ w.km.loadedKernels ∧
                  k ∉ (fname :: (deleteLoop canon rest _).2.2.deleted).map canon
              rw [hI.2.2.2.2.1 k]
              show k ∈ removeStr w.km.loadedKernels (canon fname) ∧ _ ↔ _
              rw [mem_removeStr]
              simp only [List.map_cons, List.mem_cons, not_or]
              tauto
            · intro x
              show x ∈ (deleteLoop canon rest _).1.km.segmentedFilesLoaded ↔
                x ∈ w.km.segmentedFilesLoaded ∧
                  x ∉ fname :: (deleteLoop canon rest _).2.2.deleted
              rw [hI.2.2.2.2.2.1 x]
              show x ∈ removeStr w.km.segmentedFilesLoaded fname ∧ _ ↔ _
              rw [mem_removeStr]
              simp only [List.mem_cons, not_or]
              tauto
            · exact hI.2.2.2.2.2.2.1
            · exact hI.2.2.2.2.2.2.2
          · have hstep : deleteLoop canon (fname :: rest) w =
                ((deleteLoop canon rest
                    ⟨{ w.km with
                        segmentedFilesLoaded :=
                          removeStr w.km.segmentedFilesLoaded fname },
                      Disk.del w.disk fname⟩).1,
                 [] ++ Event.mut .segmentedFilesLoaded ::
                     (deleteLoop canon rest
                        ⟨{ w.km with
                            segmentedFilesLoaded :=
                              removeStr w.km.segmentedFilesLoaded fname },
                          Disk.del w.disk fname⟩).2.1,
                 ⟨fname :: (deleteLoop canon rest
                      ⟨{ w.km with
                          segmentedFilesLoaded :=
                            removeStr w.km.segmentedFilesLoaded fname },
                        Disk.del w.disk fname⟩).2.2.deleted,
                  size + (deleteLoop canon rest
                      ⟨{ w.km with
                          segmentedFilesLoaded :=
                            removeStr w.km.segmentedFilesLoaded fname },
                        Disk.del w.disk fname⟩).2.2.freed,
                  (deleteLoop canon rest
                      ⟨{ w.km with
                          segmentedFilesLoaded :=
                            removeStr w.km.segmentedFilesLoaded fname },
                        Disk.del w.disk fname⟩).2.2.errors⟩) := by
              simp only [deleteLoop]
              rw [hget, if_neg hmem]
            rw [hstep]
            have hgdel : ∀ g ∈ rest, Disk.get (Disk.del w.disk fname) g = Disk.get w.disk g :=
              fun g hg => Disk.get_del_ne _ _ _ (fun h => hfn (h ▸ hg))
            have hI := ih
              ⟨{ w.km with
                  segmentedFilesLoaded := removeStr w.km.segmentedFilesLoaded fname },
                Disk.del w.disk fname⟩ hnd'
            have hdel : (deleteLoop canon rest
                ⟨{ w.km with
                    segmentedFilesLoaded := removeStr w.km.segmentedFilesLoaded fname },
                  Disk.del w.disk fname⟩).2.2.deleted =
                rest.filter (fun f => (Disk.get w.disk f).isSome) := by
              rw [hI.1]
              exact hcongrSome _ hgdel
            have hsubrest : ∀ g ∈ (deleteLoop canon rest
                ⟨{ w.km with
                    segmentedFilesLoaded := removeStr w.km.segmentedFilesLoaded fname },
                  Disk.del w.disk fname⟩).2.2.deleted, g ∈ rest := by
              intro g hg
              rw [hdel] at hg
              exact (List.mem_filter.1 hg).1
            refine ⟨?_, ?_, ?_, ?_, ?_, ?_, ?_, ?_⟩
            · show fname :: _ = (fname :: rest).filter (fun f => (Disk.get w.disk f).isSome)
              rw [List.filter_cons]
              simp only [hget, Option.isSome_some, if_true]
              rw [hdel]
            · show (deleteLoop canon rest _).2.2.errors =
                ((fname :: rest).filter (fun f => !(Disk.get w.disk f).isSome)).map
                  (fun f => f ++ ": not found in cache")
              rw [List.filter_cons]
              simp only [hget, Option.isSome_some, Bool.not_true, Bool.false_eq_true,
                if_false]
              rw [hI.2.1]
              congr 1
              refine List.filter_congr (fun g hg => ?_)
              rw [hgdel g hg]
            · show size + (deleteLoop canon rest _).2.2.freed =
                ((fname :: (deleteLoop canon rest _).2.2.deleted).filterMap
                  (fun f => Disk.get w.disk f)).sum
              rw [List.filterMap_cons]
              simp only [hget]
              rw [List.sum_cons, hI.2.2.1]
              refine congrArg (fun t => size + t) (congrArg List.sum ?_)
              refine List.filterMap_congr (fun g hg => ?_)
              exact hgdel g (hsubrest g hg)
            · intro f
              show Disk.get (deleteLoop canon rest _).1.disk f =
                if f ∈ fname :: rest ∧ (Disk.get w.disk f).isSome = true then none
                else Disk.get w.disk f
              rw [hI.2.2.2.1 f]
              by_cases hf : f = fname
              · subst hf
                rw [Disk.get_del_self]
                simp [hget, hfn]
              · rw [Disk.get_del_ne _ _ _ hf]
                simp [List.mem_cons, hf]
            · intro k
              show k ∈ (deleteLoop canon rest _).1.km.loadedKernels ↔
                k ∈ w.km.loadedKernels ∧
                  k ∉ (fname :: (deleteLoop canon rest _).2.2.deleted).map canon
              rw [hI.2.2.2.2.1 k]
              simp only [List.map_cons, List.mem_cons, not_or]
              constructor
              · rintro ⟨hk, hnot⟩
                exact ⟨hk, fun h => hmem (h ▸ hk), hnot⟩
              · rintro ⟨hk, _, hnot⟩
                exact ⟨hk, hnot⟩
            · intro x
              show x ∈ (deleteLoop canon rest _).1.km.segmentedFilesLoaded ↔
                x ∈ w.km.segmentedFilesLoaded ∧
                  x ∉ fname :: (deleteLoop canon rest _).2.2.deleted
              rw [hI.2.2.2.2.2.1 x]
              show x ∈ removeStr w.km.segmentedFilesLoaded fname ∧ _ ↔ _
              rw [mem_removeStr]
              simp only [List.mem_cons, not_or]
              tauto
            · exact hI.2.2.2.2.2.2.1
            · exact hI.2.2.2.2.2.2.2

/-!
## Claim theorems
-/

/-- C2: segment selection keeps exactly the segments satisfying
`coverageStart ≤ rangeEnd` and `coverageStop ≥ rangeStart`, boundaries
inclusive; on the example segments 2004-05-14..2004-06-19,
2004-06-19..2004-08-01 and 2005-01-01..2005-03-01, the query
2004-06-01..2004-07-01 selects exactly the first two and the query
2005-02-01..2005-02-01 selects only the third. -/
theorem selectSegments_overlap_spec :
    (∀ (manifest : List Segment) (s e : Date) (seg : Segment),
        seg ∈ selectSegments manifest s e ↔
          seg ∈ manifest ∧ Date.le seg.start e = true ∧ Date.le s seg.stop = true) ∧
    selectSegments exManifest ⟨2004, 6, 1⟩ ⟨2004, 7, 1⟩ = [exSegA, exSegB] ∧
    selectSegments exManifest ⟨2005, 2, 1⟩ ⟨2005, 2, 1⟩ = [exSegC] := by
  refine ⟨?_, by decide, by decide⟩
  intro manifest s e seg
  simp [selectSegments, List.mem_filter, Bool.and_eq_true]

/-- C7: `get_trajectory` grid sizing — when the naive point count exceeds
100000 the grid is coarsened to exactly 100001 points with a warning and a
step that spans the same interval in 100000 equal increments; otherwise
the naive count and step are kept; a naive 200000-point request (0 to
199999 seconds at step 1) is capped to 100001 points. -/
theorem planTrajectoryGrid_cap :
    (∀ etStart etEnd stepS : ℚ,
        (max 1 (pyTrunc ((etEnd - etStart) / stepS) + 1) > 100000 →
            planTrajectoryGrid etStart etEnd stepS =
              ⟨(etEnd - etStart) / 100000, 100001, true⟩ ∧
            (planTrajectoryGrid etStart etEnd stepS).stepS * 100000 = etEnd - etStart) ∧
        (max 1 (pyTrunc ((etEnd - etStart) / stepS) + 1) ≤ 100000 →
            planTrajectoryGrid etStart etEnd stepS =
              ⟨stepS, (max 1 (pyTrunc ((etEnd - etStart) / stepS) + 1)).toNat, false⟩)) ∧
    planTrajectoryGrid 0 199999 1 = ⟨(199999 : ℚ) / 100000, 100001, true⟩ := by
  constructor
  · intro etStart etEnd stepS
    constructor
    · intro h
      have hif : planTrajectoryGrid etStart etEnd stepS =
          ⟨(etEnd - etStart) / 100000, 100001, true⟩ := by
        simp only [planTrajectoryGrid]
        rw [if_pos h]
      refine ⟨hif, ?_⟩
      rw [hif]
      exact div_mul_cancel₀ _ (by norm_num)
    · intro h
      simp only [planTrajectoryGrid]
      rw [if_neg (by omega)]
  · have hq : ((199999 : ℚ) - 0) / 1 = ((199999 : ℤ) : ℚ) := by norm_num
    have htr : pyTrunc (((199999 : ℚ) - 0) / 1) = 199999 := by
      rw [pyTrunc, if_pos (by rw [hq]; positivity), hq, Int.floor_intCast]
    have hcap : planTrajectoryGrid 0 199999 1 =
        ⟨((199999 : ℚ) - 0) / 100000, 100001, true⟩ := by
      simp only [planTrajectoryGrid]
      rw [htr, if_pos (by norm_num)]
    rw [hcap]
    norm_num

/-- C7 witness: the general cap theorem instantiated at a 200000-point
request (capped) and an 11-point request (kept). -/
theorem planTrajectoryGrid_cap_witness :
    planTrajectoryGrid 0 199999 1 = ⟨(199999 : ℚ) / 100000, 100001, true⟩ ∧
    planTrajectoryGrid 0 10 1 = ⟨1, 11, false⟩ := by
  have hpt : pyTrunc (((10 : ℚ) - 0) / 1) = 10 := by
    have hq : ((10 : ℚ) - 0) / 1 = ((10 : ℤ) : ℚ) := by norm_num
    rw [pyTrunc, if_pos (by rw [hq]; positivity), hq, Int.floor_intCast]
  constructor
  · exact planTrajectoryGrid_cap.2
  · have h := (planTrajectoryGrid_cap.1 0 10 1).2 (by rw [hpt]; norm_num)
    rw [hpt] at h
    simpa using h

/-- C1 (refuted on the code): the query layer's `_ensure_kernels` takes no
time range and, run on the segmented mission key CASSINI (with observer
SUN, from a fresh state, all downloads succeeding), performs no
`ensure_segmented_kernels` dispatch at all and succeeds having run only
the generic-kernel step. -/
theorem ensureKernelsQL_no_segmented_dispatch :
    (lookupStr SEGMENTED_MISSIONS "CASSINI").isSome = true ∧
    (ensureKernelsQL allOkNet allOkWrite id "CASSINI" "SUN" freshWorld).2.1.countP
        Event.isCallSegmented = 0 ∧
    (ensureKernelsQL allOkNet allOkWrite id "CASSINI" "SUN" freshWorld).2.2 = none := by
  refine ⟨by decide, by decide, by decide⟩

/-- C3: when no segment overlaps the query range,
`ensure_segmented_kernels` fails — with the coverage error carrying the
manifest's first segment start and last segment stop when the manifest is
non-empty, and with the distinct empty-manifest error when it has no
segments. -/
theorem ensureSegmentedKernels_empty_selection_errors
    (net : String → Except String Nat) (writeOk : String → Bool)
    (canon : String → String) (manifests : String → List Segment)
    (key : String) (s e : Date) (w : World)
    (hg : w.km.genericLoaded = true)
    (hsel : selectSegments (manifests key) s e = []) :
    (ensureSegmentedKernels net writeOk canon manifests key s e w).2.2 =
      (match manifests key with
       | [] => some (.emptyManifest key)
       | first :: rest =>
           some (.noCoverage key s e first.start (rest.getLastD first).stop)) ∧
    (∀ k k' a b c d, Err.noCoverage k a b c d ≠ Err.emptyManifest k') := by
  refine ⟨?_, fun _ _ _ _ _ _ h => nomatch h⟩
  rw [ensureSegmentedKernels, ensureGeneric_noop hg]
  cases hm : manifests key with
  | nil =>
      rw [hm] at hsel
      simp [hsel]
  | cons first rest =>
      rw [hm] at hsel
      simp [hsel]

/-- C3 witness: the coverage-error branch evaluated on the example
manifest for the query 2010-01-01..2010-02-01, which overlaps nothing. -/
theorem ensureSegmentedKernels_empty_selection_errors_witness :
    (ensureSegmentedKernels allOkNet allOkWrite id (fun _ => exManifest)
        "CASSINI" ⟨2010, 1, 1⟩ ⟨2010, 2, 1⟩
        ⟨{ freshKM with genericLoaded := true }, []⟩).2.2 =
      some (.noCoverage "CASSINI" ⟨2010, 1, 1⟩ ⟨2010, 2, 1⟩ ⟨2004, 5, 14⟩ ⟨2005, 3, 1⟩) := by
  have h := ensureSegmentedKernels_empty_selection_errors allOkNet allOkWrite id
    (fun _ => exManifest) "CASSINI" ⟨2010, 1, 1⟩ ⟨2010, 2, 1⟩
    ⟨{ freshKM with genericLoaded := true }, []⟩ rfl (by decide)
  exact h.1.trans (by decide)

/-- C5: `load_kernel` is idempotent — from a state where a path's
canonical key is not yet loaded, two successive `load_kernel` calls on it
perform exactly one SPICE admission (of that key), and after any sequence
of loads each canonical path occurs at most once in the loaded set. -/
theorem loadKernel_idempotent_spec :
    (∀ (canon : String → String) (p : String) (s : KMState),
        canon p ∉ s.loadedKernels →
          ((loadKernel canon p s).2 ++
              (loadKernel canon p (loadKernel canon p s).1).2).filterMap Event.furnshKey =
            [canon p]) ∧
    (∀ (canon : String → String) (paths : List String) (s : KMState),
        (∀ key, s.loadedKernels.count key ≤ 1) →
        ∀ key, (loadMany canon paths s).loadedKernels.count key ≤ 1) := by
  constructor
  · intro canon p s h
    simp only [loadKernel, if_neg h]
    rw [if_pos (List.mem_cons_self _ _)]
    simp [Event.furnshKey]
  · intro canon paths
    induction paths with
    | nil =>
        intro s h key
        simpa [loadMany] using h key
    | cons p ps ih =>
        intro s h key
        have hstep : loadMany canon (p :: ps) s = loadMany canon ps (loadKernel canon p s).1 := by
          simp [loadMany]
        rw [hstep]
        exact ih (loadKernel canon p s).1 (loadKernel_count_le_one canon p s h) key

/-- C5 witness: two loads of the same path from a fresh state admit it
once; a three-load sequence leaves the repeated path recorded at most
once. -/
theorem loadKernel_idempotent_spec_witness :
    ((loadKernel id "a.bsp" freshKM).2 ++
        (loadKernel id "a.bsp" (loadKernel id "a.bsp" freshKM).1).2).filterMap
      Event.furnshKey = ["a.bsp"] ∧
    (loadMany id ["a.bsp", "a.bsp", "b.bsp"] freshKM).loadedKernels.count "a.bsp" ≤ 1 := by
  constructor
  · exact loadKernel_idempotent_spec.1 id "a.bsp" freshKM (by simp [freshKM])
  · exact loadKernel_idempotent_spec.2 id ["a.bsp", "a.bsp", "b.bsp"] freshKM
      (fun key => by simp [freshKM]) "a.bsp"

/-- C8: `download_kernel` serves a non-empty cached file without touching
the network; on a cache miss it performs exactly one fetch, and: a network
error surfaces with the disk unchanged; a successful fetch+write installs
the file with the temporary sibling gone; a write failure removes the
temporary sibling and surfaces the error — with no retry in any case. -/
theorem downloadKernel_spec :
    ∀ (net : String → Except String Nat) (writeOk : String → Bool)
      (url filename : String) (d : Disk),
      (Disk.cachedNonEmpty d filename = true →
          downloadKernel net writeOk url filename d = (d, [], none)) ∧
      (Disk.cachedNonEmpty d filename = false →
          (downloadKernel net writeOk url filename d).2.1 = [.fetch url] ∧
          (∀ e, net url = .error e →
              downloadKernel net writeOk url filename d =
                (d, [.fetch url], some (.downloadFailed filename url e))) ∧
          (∀ sz, net url = .ok sz → writeOk filename = true →
              downloadKernel net writeOk url filename d =
                (Disk.set (Disk.del d (withSuffixTmp filename)) filename sz,
                 [.fetch url], none)) ∧
          (∀ sz, net url = .ok sz → writeOk filename = false →
              downloadKernel net writeOk url filename d =
                (Disk.del d (withSuffixTmp filename), [.fetch url],
                 some (.writeFailed filename)) ∧
              Disk.get (downloadKernel net writeOk url filename d).1
                  (withSuffixTmp filename) = none)) := by
  intro net writeOk url filename d
  constructor
  · intro hc
    simp [downloadKernel, hc]
  · intro hc
    refine ⟨?_, ?_, ?_, ?_⟩
    · cases hnet : net url with
      | error e => simp [downloadKernel, hc, hnet]
      | ok sz => cases hw : writeOk filename <;> simp [downloadKernel, hc, hnet, hw]
    · intro e hnet
      simp [downloadKernel, hc, hnet]
    · intro sz hnet hw
      simp [downloadKernel, hc, hnet, hw]
    · intro sz hnet hw
      refine ⟨by simp [downloadKernel, hc, hnet, hw], ?_⟩
      simp [downloadKernel, hc, hnet, hw, Disk.get_del_self]

/-- C8 witness: cache hit returns without fetching; a failing fetch on an
empty cache surfaces the error; a successful fetch installs the file. -/
theorem downloadKernel_spec_witness :
    downloadKernel allOkNet allOkWrite "u" "k.bsp" [("k.bsp", 7)] =
      ([("k.bsp", 7)], [], none) ∧
    downloadKernel (fun _ => .error "boom") allOkWrite "u" "k.bsp" [] =
      ([], [.fetch "u"], some (.downloadFailed "k.bsp" "u" "boom")) ∧
    downloadKernel allOkNet allOkWrite "u" "k.bsp" [] =
      (Disk.set (Disk.del [] (withSuffixTmp "k.bsp")) "k.bsp" 1, [.fetch "u"], none) := by
  refine ⟨?_, ?_, ?_⟩
  · exact (downloadKernel_spec allOkNet allOkWrite "u" "k.bsp" [("k.bsp", 7)]).1 (by decide)
  · exact ((downloadKernel_spec (fun _ => .error "boom") allOkWrite "u" "k.bsp" []).2
      (by decide)).2.1 "boom" rfl
  · exact ((downloadKernel_spec allOkNet allOkWrite "u" "k.bsp" []).2
      (by decide)).2.2.1 1 rfl rfl

/-- C4: `ensure_generic_kernels` called `N ≥ 1` times from a fresh state
(all downloads succeeding) performs the download+load sequence exactly
once — across all `N` calls the SPICE admissions are exactly the four
generic files in source order and the fetches exactly their URLs — with
the time-system file `naif0012.tls` admitted before the planetary file
`de440s.bsp`, and the `genericLoaded` flag ends true; moreover, when any
file of the list fails, the flag is not set. -/
theorem ensureGeneric_once_ordered :
    (∀ N : Nat, 1 ≤ N →
        (iterGeneric allOkNet allOkWrite id N freshWorld).2.1.filterMap Event.furnshKey =
            orderedGenericFiles ∧
        (iterGeneric allOkNet allOkWrite id N freshWorld).2.1.filterMap Event.fetchUrl =
            orderedGenericFiles.filterMap (lookupStr GENERIC_KERNELS) ∧
        firstIdxOf ((iterGeneric allOkNet allOkWrite id N freshWorld).2.1.filterMap
              Event.furnshKey) "naif0012.tls" <
          firstIdxOf ((iterGeneric allOkNet allOkWrite id N freshWorld).2.1.filterMap
              Event.furnshKey) "de440s.bsp" ∧
        (iterGeneric allOkNet allOkWrite id N freshWorld).1.km.genericLoaded = true) ∧
    (∀ (net : String → Except String Nat) (writeOk : String → Bool)
        (canon : String → String) (w : World),
        w.km.genericLoaded = false →
        (ensureGenericKernels net writeOk canon w).2.2.isSome = true →
        (ensureGenericKernels net writeOk canon w).1.km.genericLoaded = false) := by
  constructor
  · intro N hN
    obtain ⟨M, rfl⟩ : ∃ M, N = M + 1 := ⟨N - 1, by omega⟩
    have h1 : ensureGenericKernels allOkNet allOkWrite id freshWorld =
        ((ensureGenericKernels allOkNet allOkWrite id freshWorld).1,
         (ensureGenericKernels allOkNet allOkWrite id freshWorld).2.1, none) := by
      decide
    have hiter := iterGeneric_succ_of_ok M h1 (by decide)
    rw [hiter]
    refine ⟨by decide, by decide, by decide, by decide⟩
  · intro net writeOk canon w hg hsome
    simp only [ensureGenericKernels, hg, Bool.false_eq_true, if_false] at hsome ⊢
    split
    · next w' ev e hloop =>
        have hpres := genericLoop_genericLoaded net writeOk canon orderedGenericFiles w
        rw [hloop] at hpres
        exact hpres.trans hg
    · next w' ev hloop =>
        rw [hloop] at hsome
        simp at hsome

/-- C4 witness: three iterated calls admit the four files once, in order;
a failing download leaves the flag unset. -/
theorem ensureGeneric_once_ordered_witness :
    (iterGeneric allOkNet allOkWrite id 3 freshWorld).2.1.filterMap Event.furnshKey =
      orderedGenericFiles ∧
    (ensureGenericKernels (fun _ => .error "down") allOkWrite id
        freshWorld).1.km.genericLoaded = false := by
  constructor
  · exact (ensureGeneric_once_ordered.1 3 (by decide)).1
  · exact ensureGeneric_once_ordered.2 (fun _ => .error "down") allOkWrite id freshWorld
      rfl (by decide)

/-- C9 (refuted on the code): `ensure_generic_kernels` assigns the
`genericLoaded` flag outside any lock acquisition — the claim that every
CacheState mutation happens under the lock is false already for a fresh
run of the generic-kernel step with all downloads succeeding. -/
theorem mutation_outside_lock_counterexample :
    mutationsUnderLock (ensureGenericKernels allOkNet allOkWrite id freshWorld).2.1 =
      false := by
  decide

/-- C9 (amended): all SPICE pool calls, in every operation, happen under
the lock, and `load_kernel`, `unload_all` and `delete_cached_files`
perform all their CacheState mutations under the lock; but the ensure
operations record their progress flags (`genericLoaded`,
`missionKernelsLoaded`, `segmentedFilesLoaded`) outside the lock. -/
theorem lock_discipline_amended :
    (∀ (canon : String → String) (p : String) (s : KMState),
        mutationsUnderLock (loadKernel canon p s).2 = true) ∧
    (∀ s : KMState, mutationsUnderLock (unloadAll s).2 = true) ∧
    (∀ (canon : String → String) (manifests : String → List Segment)
        (filenames : List String) (w : World),
        mutationsUnderLock (deleteCachedFiles canon manifests filenames w).2.1 = true) ∧
    (∀ (net : String → Except String Nat) (writeOk : String → Bool)
        (canon : String → String) (w : World),
        spiceCallsUnderLock (ensureGenericKernels net writeOk canon w).2.1 = true) ∧
    (∀ (net : String → Except String Nat) (writeOk : String → Bool)
        (canon : String → String) (key : String) (w : World),
        spiceCallsUnderLock (ensureMissionKernels net writeOk canon key w).2.1 = true) ∧
    (∀ (net : String → Except String Nat) (writeOk : String → Bool)
        (canon : String → String) (manifests : String → List Segment)
        (key : String) (ts te : Date) (w : World),
        spiceCallsUnderLock
          (ensureSegmentedKernels net writeOk canon manifests key ts te w).2.1 = true) ∧
    (∀ (net : String → Except String Nat) (writeOk : String → Bool)
        (canon : String → String) (t o : String) (w : World),
        spiceCallsUnderLock (ensureKernelsQL net writeOk canon t o w).2.1 = true) := by
  refine ⟨?_, ?_, ?_, ?_, ?_, ?_, ?_⟩
  · intro canon p s
    exact (lockSafe_loadKernel Event.isMutField canon p s 0).1
  · intro s
    rfl
  · intro canon manifests filenames w
    simp only [deleteCachedFiles, mutationsUnderLock]
    apply mutationsUnderLock_wrap
    · exact deleteLoop_flat canon filenames w
    · intro e he
      simp only [List.mem_cons] at he
      rcases he with rfl | he
      · exact ⟨by simp, by simp⟩
      · revert he
        split
        · intro he
          simp at he
          subst he
          exact ⟨by simp, by simp⟩
        · intro he
          simp at he
  · intro net writeOk canon w
    exact (lockSafe_ensureGeneric Event.isSpiceCall (fun _ => rfl) (fun _ => rfl)
      net writeOk canon w 0).1
  · intro net writeOk canon key w
    exact (lockSafe_ensureMission Event.isSpiceCall (fun _ => rfl) (fun _ => rfl)
      (fun _ => rfl) net writeOk canon key w 0).1
  · intro net writeOk canon manifests key ts te w
    exact (lockSafe_ensureSegmented Event.isSpiceCall (fun _ => rfl) (fun _ => rfl)
      (fun _ => rfl) net writeOk canon manifests key ts te w 0).1
  · intro net writeOk canon t o w
    exact (lockSafe_ensureKernelsQL Event.isSpiceCall (fun _ => rfl) (fun _ => rfl)
      (fun _ => rfl) net writeOk canon t o w 0).1

/-- C10: `ensure_segmented_kernels` is not atomic on failure — with the
selection `A ++ b :: C`, generic kernels already loaded, the segments of
`A` fresh and downloadable, and the download of `b` failing, the call
errors but every segment of `A` stays recorded in `segmentedFilesLoaded`
and admitted in `loadedKernels`, `b` is not recorded, and repeating the
identical call skips all of `A` (no fetch for them) and retries exactly
the failed segment. -/
theorem ensureSegmentedKernels_partial_failure
    (net : String → Except String Nat) (writeOk : String → Bool)
    (canon : String → String) (manifests : String → List Segment)
    (key : String) (ts te : Date) (w : World) (A : List Segment) (b : Segment)
    (C : List Segment) (msg : String)
    (hg : w.km.genericLoaded = true)
    (hsel : selectSegments (manifests key) ts te = A ++ b :: C)
    (hND : ((A ++ [b]).map Segment.file).Nodup)
    (hA : ∀ a ∈ A, Disk.get w.disk a.file = none ∧ a.file ∉ w.km.segmentedFilesLoaded ∧
        (∃ n, net a.url = Except.ok n) ∧ writeOk a.file = true)
    (hbd : Disk.get w.disk b.file = none)
    (hbl : b.file ∉ w.km.segmentedFilesLoaded)
    (hbn : net b.url = Except.error msg) :
    (ensureSegmentedKernels net writeOk canon manifests key ts te w).2.2 =
        some (Err.downloadFailed b.file b.url msg) ∧
    (∀ a ∈ A,
        a.file ∈ (ensureSegmentedKernels net writeOk canon manifests key ts te
            w).1.km.segmentedFilesLoaded ∧
        canon a.file ∈ (ensureSegmentedKernels net writeOk canon manifests key ts te
            w).1.km.loadedKernels) ∧
    b.file ∉ (ensureSegmentedKernels net writeOk canon manifests key ts te
        w).1.km.segmentedFilesLoaded ∧
    (ensureSegmentedKernels net writeOk canon manifests key ts te
        (ensureSegmentedKernels net writeOk canon manifests key ts te w).1).2.1.filter
      Event.isFetch = [Event.fetch b.url] := by
  have hI := segLoop_fail_mid net writeOk canon b C msg A w hND hA hbd hbl hbn
  have h1 : ensureSegmentedKernels net writeOk canon manifests key ts te w =
      ((segLoop net writeOk canon (A ++ b :: C) w).1,
       Event.callEnsureSegmented key ::
         ([] ++ (segLoop net writeOk canon (A ++ b :: C) w).2.1),
       (segLoop net writeOk canon (A ++ b :: C) w).2.2) := by
    simp only [ensureSegmentedKernels]
    rw [ensureGeneric_noop hg]
    simp only [hsel]
    rw [if_neg (by simp)]
  have hbA : b.file ∉ A.map Segment.file := by
    intro hmem
    have hND2 : (A.map Segment.file ++ [b.file]).Nodup := by simpa using hND
    have hdisj := List.disjoint_of_nodup_append hND2
    exact hdisj hmem (by simp)
  have hsegA : ∀ a ∈ A, a.file ∈
      (segLoop net writeOk canon (A ++ b :: C) w).1.km.segmentedFilesLoaded := by
    intro a ha
    rw [hI.2.1]
    refine List.mem_append.2 (Or.inl ?_)
    rw [List.mem_reverse]
    exact List.mem_map_of_mem _ ha
  have hbnot : b.file ∉
      (segLoop net writeOk canon (A ++ b :: C) w).1.km.segmentedFilesLoaded := by
    rw [hI.2.1]
    intro hmem
    rcases List.mem_append.1 hmem with h | h
    · exact hbA (List.mem_reverse.1 h)
    · exact hbl h
  refine ⟨?_, ?_, ?_, ?_⟩
  · rw [h1]
    exact hI.1
  · intro a ha
    rw [h1]
    exact ⟨hsegA a ha, hI.2.2.1 a ha⟩
  · rw [h1]
    exact hbnot
  · rw [h1]
    have hg2 : (segLoop net writeOk canon (A ++ b :: C) w).1.km.genericLoaded = true :=
      hI.2.2.2.2.1.trans hg
    have h2 : ensureSegmentedKernels net writeOk canon manifests key ts te
        (segLoop net writeOk canon (A ++ b :: C) w).1 =
        ((segLoop net writeOk canon (A ++ b :: C)
            (segLoop net writeOk canon (A ++ b :: C) w).1).1,
         Event.callEnsureSegmented key ::
           ([] ++ (segLoop net writeOk canon (A ++ b :: C)
               (segLoop net writeOk canon (A ++ b :: C) w).1).2.1),
         (segLoop net writeOk canon (A ++ b :: C)
             (segLoop net writeOk canon (A ++ b :: C) w).1).2.2) := by
      simp only [ensureSegmentedKernels]
      rw [ensureGeneric_noop hg2]
      simp only [hsel]
      rw [if_neg (by simp)]
    rw [h2, segLoop_skip net writeOk canon A (b :: C) _ hsegA,
      segLoop_head_fail net writeOk canon b C _ msg hbnot hI.2.2.2.2.2 hbn]
    simp [Event.isFetch]

/-- C10 witness: on the example manifest with the 2004-06-01..2004-07-01
selection, segment A downloads and segment B's download fails; A stays
recorded, and the repeated call fetches only segment B's URL. -/
theorem ensureSegmentedKernels_partial_failure_witness :
    (ensureSegmentedKernels
        (fun u => if u == "https://example.com/seg_b.bsp" then .error "netfail" else .ok 4)
        allOkWrite id (fun _ => exManifest) "CASSINI" ⟨2004, 6, 1⟩ ⟨2004, 7, 1⟩
        ⟨{ freshKM with genericLoaded := true }, []⟩).2.2 =
      some (Err.downloadFailed "seg_b.bsp" "https://example.com/seg_b.bsp" "netfail") ∧
    "seg_a.bsp" ∈ (ensureSegmentedKernels
        (fun u => if u == "https://example.com/seg_b.bsp" then .error "netfail" else .ok 4)
        allOkWrite id (fun _ => exManifest) "CASSINI" ⟨2004, 6, 1⟩ ⟨2004, 7, 1⟩
        ⟨{ freshKM with genericLoaded := true }, []⟩).1.km.segmentedFilesLoaded := by
  have h := ensureSegmentedKernels_partial_failure
    (fun u => if u == "https://example.com/seg_b.bsp" then .error "netfail" else .ok 4)
    allOkWrite id (fun _ => exManifest) "CASSINI" ⟨2004, 6, 1⟩ ⟨2004, 7, 1⟩
    ⟨{ freshKM with genericLoaded := true }, []⟩ [exSegA] exSegB [] "netfail"
    rfl (by decide) (by decide)
    (by
      intro a ha
      simp only [List.mem_singleton] at ha
      subst ha
      exact ⟨rfl, by simp [freshKM], ⟨4, rfl⟩, rfl⟩)
    rfl (by simp [freshKM]) rfl
  exact ⟨h.1, (h.2.1 exSegA (by simp)).1⟩

/-- C6: `delete_cached_files` on a duplicate-free mixed list returns
exactly the on-disk files as `deleted` (in order), one per-file error for
each absent file, and a freed byte count equal to the sizes of the
deleted files only; afterwards the deleted files are gone from disk and
from the loaded set, every mission owning a deleted file is dropped from
`missionKernelsLoaded`, and `genericLoaded` is reset exactly when a
deleted file belongs to the generic set. -/
theorem deleteCachedFiles_spec
    (canon : String → String) (manifests : String → List Segment)
    (filenames : List String) (w : World) (hnd : filenames.Nodup) :
    ((deleteCachedFiles canon manifests filenames w).2.2.deleted =
        filenames.filter (fun f => (Disk.get w.disk f).isSome)) ∧
    ((deleteCachedFiles canon manifests filenames w).2.2.errors =
        (filenames.filter (fun f => !(Disk.get w.disk f).isSome)).map
          (fun f => f ++ ": not found in cache")) ∧
    ((deleteCachedFiles canon manifests filenames w).2.2.freed =
        (((deleteCachedFiles canon manifests filenames w).2.2.deleted).filterMap
          (fun f => Disk.get w.disk f)).sum) ∧
    (∀ f ∈ (deleteCachedFiles canon manifests filenames w).2.2.deleted,
        Disk.get (deleteCachedFiles canon manifests filenames w).1.disk f = none) ∧
    (∀ f ∈ (deleteCachedFiles canon manifests filenames w).2.2.deleted,
        canon f ∉ (deleteCachedFiles canon manifests filenames w).1.km.loadedKernels) ∧
    (∀ m : String,
        m ∈ (deleteCachedFiles canon manifests filenames w).1.km.missionKernelsLoaded ↔
        m ∈ w.km.missionKernelsLoaded ∧
          ¬∃ f ∈ (deleteCachedFiles canon manifests filenames w).2.2.deleted,
              dictGet (buildFileToMissionMap manifests) f = some m) ∧
    ((deleteCachedFiles canon manifests filenames w).1.km.genericLoaded =
        if ∃ f ∈ (deleteCachedFiles canon manifests filenames w).2.2.deleted,
            dictGet (buildFileToMissionMap manifests) f = some "GENERIC"
        then false
        else w.km.genericLoaded) := by
  have hL := deleteLoop_spec canon filenames w hnd
  have hinv : ∀ m : String,
      m ∈ (((deleteLoop canon filenames w).2.2.deleted).filterMap
          (dictGet (buildFileToMissionMap manifests))).dedup ↔
        ∃ f ∈ (deleteLoop canon filenames w).2.2.deleted,
          dictGet (buildFileToMissionMap manifests) f = some m := by
    intro m
    rw [List.mem_dedup]
    simp [List.mem_filterMap]
  simp only [deleteCachedFiles]
  refine ⟨hL.1, hL.2.1, hL.2.2.1, ?_, ?_, ?_, ?_⟩
  · intro f hf
    rw [hL.2.2.2.1 f]
    have hf' := hL.1 ▸ hf
    have := List.mem_filter.1 hf'
    rw [if_pos ⟨this.1, this.2⟩]
  · intro f hf
    intro hk
    have hmap : canon f ∈ ((deleteLoop canon filenames w).2.2.deleted).map canon :=
      List.mem_map_of_mem _ hf
    have hloaded : canon f ∈ (deleteLoop canon filenames w).1.km.loadedKernels := by
      by_cases hgen : "GENERIC" ∈
          (((deleteLoop canon filenames w).2.2.deleted).filterMap
            (dictGet (buildFileToMissionMap manifests))).dedup
      · simpa [hgen] using hk
      · simpa [hgen] using hk
    exact ((hL.2.2.2.2.1 (canon f)).1 hloaded).2 hmap
  · intro m
    have hmm : ∀ b : Bool,
        (m ∈ ((deleteLoop canon filenames w).1.km.missionKernelsLoaded.filter
            (fun x => !((((deleteLoop canon filenames w).2.2.deleted).filterMap
                (dictGet (buildFileToMissionMap manifests))).dedup.contains x))) ↔
          m ∈ w.km.missionKernelsLoaded ∧
            ¬∃ f ∈ (deleteLoop canon filenames w).2.2.deleted,
              dictGet (buildFileToMissionMap manifests) f = some m) := by
      intro _b
      rw [List.mem_filter, hL.2.2.2.2.2.2.1]
      constructor
      · rintro ⟨hm, hnc⟩
        refine ⟨hm, fun hex => ?_⟩
        rw [Bool.not_eq_true', ← Bool.not_eq_true] at hnc
        exact hnc (by simpa [List.contains, List.elem_iff] using (hinv m).2 hex)
      · rintro ⟨hm, hnex⟩
        refine ⟨hm, ?_⟩
        simp only [Bool.not_eq_true', ← Bool.not_eq_true]
        intro hc
        exact hnex ((hinv m).1 (by simpa [List.contains, List.elem_iff] using hc))
    by_cases hgen : "GENERIC" ∈
        (((deleteLoop canon filenames w).2.2.deleted).filterMap
          (dictGet (buildFileToMissionMap manifests))).dedup
    · simpa [hgen] using hmm true
    · simpa [hgen] using hmm true
  · by_cases hgen : "GENERIC" ∈
        (((deleteLoop canon filenames w).2.2.deleted).filterMap
          (dictGet (buildFileToMissionMap manifests))).dedup
    · rw [if_pos ((hinv "GENERIC").1 hgen)]
      simp [hgen]
    · rw [if_neg (fun hex => hgen ((hinv "GENERIC").2 hex))]
      simpa [hgen] using hL.2.2.2.2.2.2.2

/-- C6 witness: deleting one cached and one absent file from a concrete
world deletes the cached file, reports the absent one, and frees exactly
the cached file's size. -/
theorem deleteCachedFiles_spec_witness :
    (deleteCachedFiles id (fun _ => []) ["a.bsp", "missing.bsp"]
        ⟨⟨["a.bsp"], true, ["PSP"], []⟩, [("a.bsp", 100)]⟩).2.2.deleted = ["a.bsp"] ∧
    (deleteCachedFiles id (fun _ => []) ["a.bsp", "missing.bsp"]
        ⟨⟨["a.bsp"], true, ["PSP"], []⟩, [("a.bsp", 100)]⟩).2.2.errors =
      ["missing.bsp: not found in cache"] ∧
    (deleteCachedFiles id (fun _ => []) ["a.bsp", "missing.bsp"]
        ⟨⟨["a.bsp"], true, ["PSP"], []⟩, [("a.bsp", 100)]⟩).2.2.freed = 100 := by
  have h := deleteCachedFiles_spec id (fun _ => []) ["a.bsp", "missing.bsp"]
    ⟨⟨["a.bsp"], true, ["PSP"], []⟩, [("a.bsp", 100)]⟩ (by decide)
  refine ⟨h.1.trans (by decide), h.2.1.trans (by decide), h.2.2.1.trans ?_⟩
  rw [h.1]
  decide

end Heliospice
